import Mathlib

/-!
# dc_buffered_stream_send2: buffered outbound channel of the RPC layer

A shallow embedding of `src/graphlab/rpc/dc_buffered_stream_send2.cpp`.

* Part 1 embeds the data operations and the sequential behaviour of the two
  `send_data` overloads, one drain iteration of `send_loop` and `set_option`.
* Part 2 embeds the same code as an interleaving transition system (one
  program counter per thread, one micro-step per synchronisation statement)
  to talk about the two mutexes.

Declarations that live in headers outside the translated file (the packet
header layout, the mask constants, the growable buffer, the counters of the
owning `distributed_control`, the mutex and condition variable) are either
parameters collected in `Env` or small models whose doc comment says so.
-/

namespace dc_buffered_stream_send2

/-! ## Part 1: data model -/

/-- One `char` of payload. -/
abbrev Byte := Fin 256

/-- The value `size_t(-1)`, the unknown-length sentinel of the stream overload. -/
def SIZE_MAX : Nat := 2 ^ 64 - 1

/-- The fields of `packet_hdr` that `send_data` fills in (lines 84-87). -/
structure packet_hdr where
  len : Nat
  src : Nat
  sequentialization_key : Nat
  packet_type_mask : Nat
deriving DecidableEq, Repr

/-- What the translated file uses but does not declare: the three mask
constants, the in-memory image of a `packet_hdr` (what
`reinterpret_cast<char*>(&hdr)` with `sizeof(packet_hdr)` denotes), and the
value the double-precision expression `0.5 * wait_count_bytes + 0.5 * rate`
of line 150-151 has after conversion back to the integer field, as a function
of `wait_count_bytes`, `sentlen`, `rtdsc_per_ms` and the elapsed tick count. -/
structure Env where
  CONTROL_PACKET : Nat
  FAST_CALL : Nat
  STANDARD_CALL : Nat
  hdr_bytes : packet_hdr → List Byte
  blend : Nat → Nat → Nat → Nat → Nat

/-- Modelled from the spec: the growable buffer class behind `writebuffer` and
`sendbuffer` is declared in a header that is not part of the translated file.
`str` holds the `len` valid bytes, `buffer_size` is the capacity. -/
structure Buffer where
  str : List Byte
  buffer_size : Nat
deriving DecidableEq, Repr

namespace Buffer

/-- The member `len`: number of valid bytes. -/
def len (b : Buffer) : Nat := b.str.length

/-- Modelled from the spec: `write(s, n)` appends the bytes and grows the
capacity by doubling when they do not fit. -/
def write (b : Buffer) (s : List Byte) : Buffer :=
  { str := b.str ++ s
    buffer_size :=
      if b.str.length + s.length > b.buffer_size then 2 * (b.str.length + s.length)
      else b.buffer_size }

/-- Modelled from the spec: `clear()` resets the length and keeps the capacity. -/
def clear (b : Buffer) : Buffer := { str := [], buffer_size := b.buffer_size }

/-- Modelled from the spec: `clear(n)` resets the length and reallocates to
capacity `n`. -/
def clearTo (_b : Buffer) (n : Nat) : Buffer := { str := [], buffer_size := n }

end Buffer

/-- Modelled from the spec: the member `inc(n)` of the atomic counter class
behind `bytessent`, which is declared outside the translated file. It adds
`n`; the counter is taken as an unbounded natural. -/
def atomic_inc (v n : Nat) : Nat := v + n

/-- Modelled from the spec: `inc_calls_sent(target)` of the owning
`distributed_control`, which is declared outside the translated file. It adds
one to the sent-call counter kept for `target`. -/
def inc_calls_sent (calls_sent : Nat → Nat) (target : Nat) : Nat → Nat :=
  fun t => if t = target then calls_sent t + 1 else calls_sent t

/-- The channel object together with the collaborators it talks to.
`calls_sent` is the per-target counter behind `dc->inc_calls_sent`, `procid`
is `dc->procid()`, `transport` records every `comm->send(target, str, len)`
call in call order, `signals` counts `cond.signal()` calls. -/
structure Channel where
  target : Nat
  procid : Nat
  writebuffer : Buffer
  sendbuffer : Buffer
  bytessent : Nat
  calls_sent : Nat → Nat
  wait_count_bytes : Nat
  nanosecond_wait : Nat
  prevtime : Nat
  rtdsc_per_ms : Nat
  done : Bool
  transport : List (Nat × List Byte)
  signals : Nat

/-- All bytes handed to the transport so far, in call order. -/
def Channel.wire (c : Channel) : List Byte := (c.transport.map Prod.snd).flatten

/-! ### Statement groups of `send_data(procid_t, unsigned char, char*, size_t)` -/

/-- The test `(packet_type_mask & CONTROL_PACKET) == 0` of line 73. -/
def control_unset (E : Env) (mask : Nat) : Bool := (mask &&& E.CONTROL_PACKET) == 0

/-- The test `packet_type_mask & (FAST_CALL | STANDARD_CALL)` of line 74. -/
def is_call (E : Env) (mask : Nat) : Bool := (mask &&& (E.FAST_CALL ||| E.STANDARD_CALL)) != 0

/-- Lines 73-78: call and byte accounting. -/
def account (E : Env) (c : Channel) (target mask len : Nat) : Channel :=
  if control_unset E mask then
    let c1 :=
      if is_call E mask then
        { c with calls_sent := inc_calls_sent c.calls_sent target }
      else c
    { c1 with bytessent := atomic_inc c1.bytessent len }
  else c

/-- Lines 81-87: the packet header. -/
def build_hdr (c : Channel) (mask len key : Nat) : packet_hdr :=
  { len := len, src := c.procid, sequentialization_key := key, packet_type_mask := mask }

/-- Lines 92-93: header bytes, then the first `len` bytes at `data`. -/
def append_packet (E : Env) (c : Channel) (hdr : packet_hdr) (data : List Byte) (len : Nat) :
    Channel :=
  { c with writebuffer := (c.writebuffer.write (E.hdr_bytes hdr)).write (data.take len) }

/-- Lines 98 and 133: `sendbuffer.swap(writebuffer)`. -/
def swap_buffers (c : Channel) : Channel :=
  { c with sendbuffer := c.writebuffer, writebuffer := c.sendbuffer }

/-- Lines 101 and 136: `comm->send(target, sendbuffer.str, sendbuffer.len)`. -/
def transport_call (c : Channel) (target : Nat) : Channel :=
  { c with transport := c.transport ++ [(target, c.sendbuffer.str)] }

/-- Lines 103-109 and 138-144: shrink the send buffer or just reset it. -/
def shrink_or_clear (c : Channel) : Channel :=
  if c.sendbuffer.len < c.sendbuffer.buffer_size / 2 ∧ c.sendbuffer.buffer_size > 10240 then
    { c with sendbuffer := c.sendbuffer.clearTo (c.sendbuffer.buffer_size / 2) }
  else
    { c with sendbuffer := c.sendbuffer.clear }

/-- The test of lines 112-113. -/
def should_signal (c : Channel) (prevwbufsize : Nat) : Bool :=
  prevwbufsize == 0 || decide (c.writebuffer.len ≥ c.wait_count_bytes)

/-- Line 114: `cond.signal()`. -/
def signal (c : Channel) : Channel := { c with signals := c.signals + 1 }

/-- Lines 145-154. `curtime` is the value `rdtsc()` returns; the subtraction
`curtime - prevtime` is on `unsigned long long`. -/
def rate_update (E : Env) (c : Channel) (sentlen curtime : Nat) : Channel :=
  if c.prevtime = 0 then
    { c with prevtime := curtime }
  else
    let w := E.blend c.wait_count_bytes sentlen c.rtdsc_per_ms
      ((curtime + 2 ^ 64 - c.prevtime) % 2 ^ 64)
    { c with wait_count_bytes := w + (if w = 0 then 1 else 0), prevtime := curtime }

/-- The byte-array overload, lines 70-120, run without interference from other
threads. `key` is what `dc->get_sequentialization_key()` returns and
`sendlock_free` is the outcome of `sendlock.try_lock()`. The parameter
`target` shadows the member of the same name, as in the source. -/
def send_data (E : Env) (c : Channel) (target mask : Nat) (data : List Byte) (len key : Nat)
    (sendlock_free : Bool) : Channel :=
  let c1 := account E c target mask len
  let hdr := build_hdr c1 mask len key
  let prevwbufsize := c1.writebuffer.len
  let c2 := append_packet E c1 hdr data len
  if sendlock_free then
    shrink_or_clear (transport_call (swap_buffers c2) target)
  else if should_signal c2 prevwbufsize then
    signal c2
  else
    c2

/-- One pass through the body of `while (1)` in `send_loop` (lines 131-169)
run without interference: a drain when the write buffer is non-empty,
otherwise the idle wait, which changes no channel data. -/
def send_loop_iter (E : Env) (c : Channel) (curtime : Nat) : Channel :=
  if c.writebuffer.len > 0 then
    let c1 := swap_buffers c
    let sentlen := c1.sendbuffer.len
    let c2 := shrink_or_clear (transport_call c1 c1.target)
    rate_update E c2 sentlen curtime
  else c

/-- The member `set_option`, lines 185-197 (`set_option` itself is a reserved
word here). -/
def setOption (c : Channel) (opt : String) (val : Nat) : Nat × Channel :=
  if opt = "nanosecond_wait" then
    (c.nanosecond_wait, { c with nanosecond_wait := val })
  else if opt = "wait_count_bytes" then
    (c.wait_count_bytes, { c with wait_count_bytes := val })
  else
    (0, c)

/-! ### The stream overload `send_data(procid_t, unsigned char, std::istream&, size_t)` -/

/-- The part of `std::istream` the source uses. `avail` lists what successive
`readsome` calls find available (`rdbuf()->in_avail()`): a non-empty entry is
a block of buffered characters, an empty entry is a call that finds nothing
yet, and the end of the list is the call that finds the sequence exhausted
and sets `eofbit`, after which `good()` is false. -/
structure IStream where
  avail : List (List Byte)
  good : Bool
deriving DecidableEq, Repr

namespace IStream

/-- A readable stream that will deliver `chunks` and then stop being readable. -/
def ofChunks (chunks : List (List Byte)) : IStream := { avail := chunks, good := true }

/-- The member `readsome(s, n)`: extracts `min(in_avail, n)` characters and
returns them (their number is the C++ return value). -/
def readsome (s : IStream) (n : Nat) : List Byte × IStream :=
  if s.good then
    match s.avail with
    | [] => ([], { s with good := false })
    | c :: cs =>
      if c.length ≤ n then (c, { s with avail := cs })
      else (c.take n, { s with avail := c.drop n :: cs })
  else ([], s)

/-- An upper bound on the number of `readsome` calls with a positive request
the stream can answer before `good()` turns false. -/
def cost (s : IStream) : Nat := s.avail.length + s.avail.flatten.length + 1

end IStream

/-- How a call can fail to return. -/
inductive Fault
  | assertion
  | out_of_fuel
deriving DecidableEq, Repr

/-- Modelled from the spec: the macro `ASSERT_EQ` is declared outside the
translated file. A failed assertion is fatal: the call does not return. -/
def ASSERT_EQ (a b : Nat) : Except Fault Unit := if a = b then .ok () else .error .assertion

/-- Lines 40-43: `while (len > 0 && istrm.good())` with its body. `cbuffer`
is the array of line 39 (its uninitialised content is taken as zeros by the
caller); every `readsome(cbuffer, len)` stores at its start.
Returns `none` when `fuel` iterations do not reach the loop exit. -/
def read_known : Nat → IStream → List Byte → Nat → Option (IStream × List Byte × Nat)
  | 0, _, _, _ => none
  | fuel + 1, istrm, cbuffer, len =>
    if len > 0 ∧ istrm.good = true then
      let r := istrm.readsome len
      let l := r.1.length
      read_known fuel r.2 (r.1 ++ cbuffer.drop l) ((len + 2 ^ 64 - l) % 2 ^ 64)
    else some (istrm, cbuffer, len)

/-- The locals of the unknown-length branch (lines 51-53). `data` holds the
bytes stored so far in the allocated block, `cursize` is the block size. -/
structure Grow where
  istrm : IStream
  data : List Byte
  len : Nat
  cursize : Nat
deriving DecidableEq, Repr

/-- Lines 51-53. -/
def Grow.init (istrm : IStream) : Grow := { istrm := istrm, data := [], len := 0, cursize := 128 }

/-- Lines 59-63: one pass through the loop body, in `size_t` arithmetic. -/
def grow_step (g : Grow) : Grow :=
  let r := g.istrm.readsome ((g.cursize + 2 ^ 64 - g.len) % 2 ^ 64)
  let len := (g.len + r.1.length) % 2 ^ 64
  let data := g.data.take g.len ++ r.1
  if (g.cursize + 2 ^ 64 - len) % 2 ^ 64 = 0 then
    { istrm := r.2, data := data, len := len, cursize := (g.cursize * 2) % 2 ^ 64 }
  else
    { istrm := r.2, data := data, len := len, cursize := g.cursize }

/-- Lines 58-64: `while (istrm.good())` around `grow_step`. Returns `none`
when `fuel` iterations do not reach the loop exit. -/
def read_unknown : Nat → Grow → Option Grow
  | 0, _ => none
  | fuel + 1, g => if g.istrm.good = true then read_unknown fuel (grow_step g) else some g

/-- The stream overload, lines 33-68. The member `target` is passed on to the
byte-array overload, as in the source. A loop that does not reach its exit
within `fuel` iterations is reported as `out_of_fuel`. -/
def send_data_istream (E : Env) (c : Channel) (target_ mask : Nat) (istrm : IStream)
    (len key : Nat) (sendlock_free : Bool) (fuel : Nat) : Except Fault Channel :=
  match ASSERT_EQ c.target target_ with
  | .error e => .error e
  | .ok _ =>
    if len ≠ SIZE_MAX then
      match read_known fuel istrm (List.replicate len 0) len with
      | none => .error .out_of_fuel
      | some (_, cbuffer, len1) =>
        .ok (send_data E c c.target mask cbuffer len1 key sendlock_free)
    else
      match read_unknown fuel (Grow.init istrm) with
      | none => .error .out_of_fuel
      | some g => .ok (send_data E c c.target mask g.data g.len key sendlock_free)

/-! ### Sequences of calls -/

/-- The arguments of one byte-array `send_data` call together with the value
`dc->get_sequentialization_key()` returns during it. -/
structure Args where
  target : Nat
  mask : Nat
  data : List Byte
  len : Nat
  key : Nat
deriving DecidableEq, Repr

/-- A call run on its own: the arguments and the outcome of
`sendlock.try_lock()`. -/
structure Call extends Args where
  sendlock_free : Bool
deriving DecidableEq, Repr

/-- Run one call. -/
def Call.run (E : Env) (c : Channel) (k : Call) : Channel :=
  send_data E c k.target k.mask k.data k.len k.key k.sendlock_free

/-- Run the calls one after the other. -/
def send_all (E : Env) (c : Channel) (calls : List Call) : Channel :=
  calls.foldl (Call.run E) c

/-- A step of the channel seen from outside: a producer call or one pass of
the flush loop, `curtime` being the cycle counter it reads. -/
inductive Step
  | send (k : Call)
  | drain (curtime : Nat)
deriving DecidableEq, Repr

/-- Run one step. -/
def Step.run (E : Env) (c : Channel) : Step → Channel
  | .send k => k.run E c
  | .drain curtime => send_loop_iter E c curtime

/-- Run the steps one after the other. -/
def run_steps (E : Env) (c : Channel) (steps : List Step) : Channel :=
  steps.foldl (Step.run E) c

/-- The bytes a step enqueues: header then payload for a send, nothing for a
drain. `procid` is the sender id stamped into the header. -/
def Step.frame (E : Env) (procid : Nat) : Step → List Byte
  | .send k =>
    E.hdr_bytes { len := k.len, src := procid, sequentialization_key := k.key,
                  packet_type_mask := k.mask } ++ k.data.take k.len
  | .drain _ => []

/-- What remains to be done on a stream: zero once `good()` is false. -/
def IStream.todo (s : IStream) : Nat := if s.good then s.cost else 0

/-- The loop invariant of lines 58-64 at the loop head, for a stream whose
complete byte sequence is `bs`. -/
structure GrowInv (bs : List Byte) (g : Grow) : Prop where
  bytes : g.data ++ g.istrm.avail.flatten = bs
  len_eq : g.len = g.data.length
  lt_cap : g.len < g.cursize
  cap_pow : ∃ j, g.cursize = 128 * 2 ^ j
  cap_le : g.cursize ≤ max 128 (2 * g.len)
  eof : g.istrm.good = false → g.istrm.avail = []

/-! ## Part 2: the same code as an interleaving transition system

Any number of producer threads run the byte-array `send_data`, one thread runs
`send_loop`, and the owner may run `shutdown`. A thread takes one micro-step
at a time; the scheduler is the list of labels. A thread whose next statement
is a blocking `lock()` on a held mutex does not move. -/

/-- Thread identities. -/
inductive Tid
  | flush
  | prod (i : Nat)
deriving DecidableEq, Repr

/-- Modelled from the spec: the mutex class behind `lock` and `sendlock` is
declared outside the translated file. A mutex is free (`none`) or records its
holder; `lock()` proceeds only on a free mutex and otherwise waits,
`try_lock()` never waits and reports whether it took the mutex, `unlock()`
frees it. -/
abbrev Mutex := Option Tid

/-- Program points of a producer inside the byte-array `send_data`, named by
the source line that executes next, with the locals still needed. -/
inductive PPc
  | idle
  | l89 (a : Args) (hdr : packet_hdr)
  | l91 (a : Args) (hdr : packet_hdr)
  | l95 (target prevwbufsize : Nat)
  | l98 (target : Nat)
  | l99 (target : Nat)
  | l101 (target : Nat)
  | in_send
  | l103
  | l110
  | l112 (prevwbufsize : Nat)
  | l114
  | l115
  | l118
deriving DecidableEq, Repr

/-- Program points of `send_loop`, named by the source line that executes
next. `in_send` is inside `comm->send`, `waiting` is inside `cond.wait` or
`cond.timedwait_ns` after the mutex has been given up. -/
inductive FPc
  | l129
  | l131
  | l132
  | l133
  | l134
  | l135
  | in_send (sentlen : Nat)
  | l138 (sentlen : Nat)
  | l145 (sentlen : Nat)
  | l156
  | l157
  | l159
  | l161 (sleep_start_time : Nat)
  | l164 (sleep_start_time : Nat)
  | waiting (sleep_start_time : Nat)
  | l170
  | l174
  | exited
deriving DecidableEq, Repr

/-- The channel, the two mutexes `lock` (buffer-lock) and `sendlock`, and the
program point of every thread. -/
structure Sys where
  ch : Channel
  lock : Mutex
  sendlock : Mutex
  fl : FPc
  pr : Nat → PPc

/-- The state right after construction: nobody holds a mutex, the flush thread
is about to enter `send_loop`, no producer is inside `send_data`. -/
def Sys.init (ch : Channel) : Sys :=
  { ch := ch, lock := none, sendlock := none, fl := .l129, pr := fun _ => .idle }

/-- Move producer `i` to program point `p`. -/
def Sys.goto (s : Sys) (i : Nat) (p : PPc) : Sys := { s with pr := Function.update s.pr i p }

/-- What the scheduler can pick: producer `i` enters `send_data` with the given
arguments, producer `i` runs its next statement, the flush thread runs its
next statement (`now` is what `rdtsc()` returns should the statement read
it), or the owner runs lines 178-181 of `shutdown`. -/
inductive Label
  | call (i : Nat) (a : Args)
  | prod (i : Nat)
  | flush (now : Nat)
  | shutdown
deriving DecidableEq, Repr

/-- Lines 73-87, executed when producer `i` enters `send_data`. -/
def step_call (E : Env) (s : Sys) (i : Nat) (a : Args) : Sys :=
  if s.pr i = .idle then
    let ch := account E s.ch a.target a.mask a.len
    { s with ch := ch }.goto i (.l89 a (build_hdr ch a.mask a.len a.key))
  else s

/-- The next statement of producer `i`, lines 89-119. -/
def step_prod (E : Env) (s : Sys) (i : Nat) : Sys :=
  match s.pr i with
  | .idle => s
  | .l89 a hdr => if s.lock = none then { s with lock := some (.prod i) }.goto i (.l91 a hdr) else s
  | .l91 a hdr =>
    { s with ch := append_packet E s.ch hdr a.data a.len }.goto i
      (.l95 a.target s.ch.writebuffer.len)
  | .l95 t prev =>
    if s.sendlock = none then { s with sendlock := some (.prod i) }.goto i (.l98 t)
    else s.goto i (.l112 prev)
  | .l98 t => { s with ch := swap_buffers s.ch }.goto i (.l99 t)
  | .l99 t => { s with lock := none }.goto i (.l101 t)
  | .l101 t => { s with ch := transport_call s.ch t }.goto i .in_send
  | .in_send => s.goto i .l103
  | .l103 => { s with ch := shrink_or_clear s.ch }.goto i .l110
  | .l110 => { s with sendlock := none }.goto i .idle
  | .l112 prev => if should_signal s.ch prev then s.goto i .l114 else s.goto i .l118
  | .l114 => { s with ch := signal s.ch }.goto i .l115
  | .l115 => { s with lock := none }.goto i .idle
  | .l118 => { s with lock := none }.goto i .idle

/-- The next statement of the flush thread, lines 129-174. -/
def step_flush (E : Env) (s : Sys) (now : Nat) : Sys :=
  match s.fl with
  | .l129 => if s.lock = none then { s with lock := some .flush, fl := .l131 } else s
  | .l131 => if s.ch.writebuffer.len > 0 then { s with fl := .l132 } else { s with fl := .l159 }
  | .l132 => if s.sendlock = none then { s with sendlock := some .flush, fl := .l133 } else s
  | .l133 => { s with ch := swap_buffers s.ch, fl := .l134 }
  | .l134 => { s with lock := none, fl := .l135 }
  | .l135 =>
    { s with ch := transport_call s.ch s.ch.target, fl := .in_send s.ch.sendbuffer.len }
  | .in_send n => { s with fl := .l138 n }
  | .l138 n => { s with ch := shrink_or_clear s.ch, fl := .l145 n }
  | .l145 n => { s with ch := rate_update E s.ch n now, fl := .l156 }
  | .l156 => { s with sendlock := none, fl := .l157 }
  | .l157 => if s.lock = none then { s with lock := some .flush, fl := .l170 } else s
  | .l159 => { s with fl := .l161 now }
  | .l161 t0 =>
    if s.ch.writebuffer.len < s.ch.wait_count_bytes ∧ (t0 + s.ch.rtdsc_per_ms) % 2 ^ 64 > now
        ∧ s.ch.done = false then
      { s with fl := .l164 t0 }
    else { s with fl := .l170 }
  | .l164 t0 => { s with lock := none, fl := .waiting t0 }
  | .waiting t0 => if s.lock = none then { s with lock := some .flush, fl := .l161 t0 } else s
  | .l170 => if s.ch.done = true then { s with fl := .l174 } else { s with fl := .l131 }
  | .l174 => { s with lock := none, fl := .exited }
  | .exited => s

/-- Lines 178-181 of `shutdown`, all under `lock`, so taken as one step. -/
def step_shutdown (s : Sys) : Sys :=
  if s.lock = none then { s with ch := signal { s.ch with done := true } } else s

/-- One scheduler choice. -/
def step (E : Env) (s : Sys) : Label → Sys
  | .call i a => step_call E s i a
  | .prod i => step_prod E s i
  | .flush now => step_flush E s now
  | .shutdown => step_shutdown s

/-- The state a schedule leads to from a freshly constructed channel. -/
def run (E : Env) (ch : Channel) (sched : List Label) : Sys :=
  sched.foldl (step E) (Sys.init ch)

/-- Whether a producer at this point has acquired `sendlock` and not yet
released it (lines 98-110). -/
def PPc.holds_sendlock : PPc → Bool
  | .l98 _ | .l99 _ | .l101 _ | .in_send | .l103 | .l110 => true
  | _ => false

/-- Whether a producer at this point has acquired `lock` and not yet released
it. -/
def PPc.holds_lock : PPc → Bool
  | .l91 _ _ | .l95 _ _ | .l98 _ | .l99 _ | .l112 _ | .l114 | .l115 | .l118 => true
  | _ => false

/-- Whether the flush thread at this point has acquired `sendlock` and not yet
released it (lines 133-156). -/
def FPc.holds_sendlock : FPc → Bool
  | .l133 | .l134 | .l135 | .in_send _ | .l138 _ | .l145 _ | .l156 => true
  | _ => false

/-- Whether the flush thread at this point has acquired `lock` and not yet
released it. -/
def FPc.holds_lock : FPc → Bool
  | .l131 | .l132 | .l133 | .l134 | .l159 | .l161 _ | .l164 _ | .l170 | .l174 => true
  | _ => false

/-- Thread `t` is about to call `comm->send` (lines 101 and 136). -/
def Sys.entering_transport (s : Sys) : Tid → Prop
  | .flush => s.fl = .l135
  | .prod i => ∃ t, s.pr i = .l101 t

/-- Thread `t` is inside `comm->send`: it has called and not yet returned. -/
def Sys.in_transport (s : Sys) : Tid → Prop
  | .flush => ∃ n, s.fl = .in_send n
  | .prod i => s.pr i = .in_send

/-- Thread `t` is at its `sendlock.unlock()` (lines 110 and 156). -/
def Sys.at_sendlock_unlock (s : Sys) : Tid → Prop
  | .flush => s.fl = .l156
  | .prod i => s.pr i = .l110

/-- The labelled thread cannot move in `s` and could if `sendlock` were free:
it is waiting for `sendlock`. -/
def waits_for_sendlock (E : Env) (s : Sys) (l : Label) : Prop :=
  s.sendlock ≠ none ∧ (step E s l).fl = s.fl ∧ (step E s l).pr = s.pr ∧
    ((step E { s with sendlock := none } l).fl ≠ s.fl ∨
     (step E { s with sendlock := none } l).pr ≠ s.pr)

/-- The link between program points and mutex holders: a thread is between
an acquire and the matching release of a mutex exactly when the mutex records
it as holder. -/
structure LockInv (s : Sys) : Prop where
  fl_send : s.fl.holds_sendlock = true ↔ s.sendlock = some .flush
  pr_send : ∀ i, (s.pr i).holds_sendlock = true ↔ s.sendlock = some (.prod i)
  fl_lock : s.fl.holds_lock = true ↔ s.lock = some .flush
  pr_lock : ∀ i, (s.pr i).holds_lock = true ↔ s.lock = some (.prod i)

/-- Where a producer stands with the send buffer: 1 after the swap and before
the transport call, 2 after the call and before the clear, 0 otherwise. -/
def PPc.phase : PPc → Nat
  | .l99 _ | .l101 _ => 1
  | .in_send | .l103 => 2
  | _ => 0

/-- Where the flush thread stands with the send buffer, as `PPc.phase`. -/
def FPc.phase : FPc → Nat
  | .l134 | .l135 => 1
  | .in_send _ | .l138 _ => 2
  | _ => 0

/-- The phase of the holder of `sendlock`, 0 when nobody holds it. -/
def Sys.phase (s : Sys) : Nat :=
  match s.sendlock with
  | none => 0
  | some .flush => s.fl.phase
  | some (.prod i) => (s.pr i).phase

/-- The bytes taken out of the write buffer by a swap and not yet handed to
the transport. -/
def Sys.in_flight (s : Sys) : List Byte := if s.phase = 1 then s.ch.sendbuffer.str else []

/-- The frame a scheduler choice enqueues: header and payload when producer
`i` runs lines 91-93, nothing otherwise. `procid` is the sender id. -/
def enqueued_by (E : Env) (procid : Nat) (s : Sys) : Label → List Byte
  | .prod i =>
    match s.pr i with
    | .l91 a _ =>
      E.hdr_bytes { len := a.len, src := procid, sequentialization_key := a.key,
                    packet_type_mask := a.mask } ++ a.data.take a.len
    | _ => []
  | _ => []

/-- All frames enqueued along a schedule, in the order of their enqueueing. -/
def enqueued (E : Env) (procid : Nat) : Sys → List Label → List Byte
  | _, [] => []
  | s, l :: ls => enqueued_by E procid s l ++ enqueued E procid (step E s l) ls

/-- The data invariant of the interleaving model: the send buffer is empty
outside phases 1 and 2, every header waiting to be written was built from
its call's arguments, and wire, in-flight bytes and write buffer together
are the frames enqueued so far. -/
structure DataInv (procid : Nat) (frames : List Byte) (s : Sys) : Prop where
  procid_eq : s.ch.procid = procid
  hdr_ok : ∀ i a hdr, (s.pr i = .l89 a hdr ∨ s.pr i = .l91 a hdr) →
    hdr = { len := a.len, src := procid, sequentialization_key := a.key,
            packet_type_mask := a.mask }
  empty : s.phase = 0 → s.ch.sendbuffer.str = []
  all : s.ch.wire ++ s.in_flight ++ s.ch.writebuffer.str = frames

/-! ### Concrete inputs -/

/-- A concrete environment: `STANDARD_CALL = 1`, `FAST_CALL = 2`,
`CONTROL_PACKET = 16`, a four-byte header image and the truncated mean as
blend. -/
def E0 : Env :=
  { CONTROL_PACKET := 16
    FAST_CALL := 2
    STANDARD_CALL := 1
    hdr_bytes := fun h =>
      [Fin.ofNat h.len, Fin.ofNat h.src, Fin.ofNat h.sequentialization_key,
       Fin.ofNat h.packet_type_mask]
    blend := fun w sentlen per_ms dt => (w + sentlen * per_ms / dt) / 2 }

/-- A fresh channel bound to target 1 on process 0. -/
def c0 : Channel :=
  { target := 1, procid := 0
    writebuffer := { str := [], buffer_size := 0 }
    sendbuffer := { str := [], buffer_size := 0 }
    bytessent := 0, calls_sent := fun _ => 0
    wait_count_bytes := 0, nanosecond_wait := 0, prevtime := 0, rtdsc_per_ms := 1000
    done := false, transport := [], signals := 0 }

/-- Three standard calls with payload lengths 10, 20 and 5. -/
def scenario : List Call :=
  [ { target := 1, mask := 1, data := List.replicate 10 0, len := 10, key := 0,
      sendlock_free := true },
    { target := 1, mask := 1, data := List.replicate 20 0, len := 20, key := 1,
      sendlock_free := false },
    { target := 1, mask := 1, data := List.replicate 5 0, len := 5, key := 2,
      sendlock_free := true } ]

/-- A one-byte standard call to target 1. -/
def a1 : Args := { target := 1, mask := 1, data := [7], len := 1, key := 0 }

/-- Producer 0 wins `sendlock` and is inside `comm->send`; producer 1 then
appends a packet and leaves; the flush thread then enters its loop and
reaches line 132. -/
def sched132 : List Label :=
  [ .call 0 a1, .prod 0, .prod 0, .prod 0, .prod 0, .prod 0, .prod 0,
    .call 1 a1, .prod 1, .prod 1, .prod 1, .prod 1, .prod 1, .prod 1,
    .flush 5, .flush 5 ]

/-- Producer 0 sends on the fast path while producer 1 appends a packet; both
return; the flush thread then enters its loop, takes `sendlock` and swaps,
and stands at line 134. -/
def sched134 : List Label :=
  [ .call 0 a1, .prod 0, .prod 0, .prod 0, .prod 0, .prod 0, .prod 0,
    .call 1 a1, .prod 1, .prod 1, .prod 1, .prod 1, .prod 1, .prod 1,
    .prod 0, .prod 0, .prod 0,
    .flush 5, .flush 5, .flush 5, .flush 5 ]

/-! ## Theorems, part 1: accounting, framing, options -/

theorem send_data_bytessent (E : Env) (c : Channel) (target mask : Nat) (data : List Byte)
    (len key : Nat) (free : Bool) :
    (send_data E c target mask data len key free).bytessent
      = (account E c target mask len).bytessent := by
  unfold send_data
  simp only [shrink_or_clear, transport_call, swap_buffers, append_packet, signal]
  split_ifs <;> rfl

theorem send_data_calls_sent (E : Env) (c : Channel) (target mask : Nat) (data : List Byte)
    (len key : Nat) (free : Bool) :
    (send_data E c target mask data len key free).calls_sent
      = (account E c target mask len).calls_sent := by
  unfold send_data
  simp only [shrink_or_clear, transport_call, swap_buffers, append_packet, signal]
  split_ifs <;> rfl

theorem account_control_set (E : Env) (c : Channel) (target mask len : Nat)
    (h : mask &&& E.CONTROL_PACKET ≠ 0) : account E c target mask len = c := by
  simp [account, control_unset, h]

theorem account_bytessent (E : Env) (c : Channel) (target mask len : Nat)
    (h : mask &&& E.CONTROL_PACKET = 0) :
    (account E c target mask len).bytessent = c.bytessent + len := by
  simp only [account, control_unset, h, beq_self_eq_true, if_true]
  split_ifs <;> rfl

theorem account_calls_sent (E : Env) (c : Channel) (target mask len : Nat)
    (h : mask &&& E.CONTROL_PACKET = 0) (t : Nat) :
    (account E c target mask len).calls_sent t
      = c.calls_sent t +
        (if t = target ∧ mask &&& (E.FAST_CALL ||| E.STANDARD_CALL) ≠ 0 then 1 else 0) := by
  simp only [account, control_unset, h, beq_self_eq_true, if_true, is_call, bne_iff_ne]
  by_cases hc : mask &&& (E.FAST_CALL ||| E.STANDARD_CALL) = 0
  · simp [hc]
  · by_cases ht : t = target <;> simp [hc, ht, inc_calls_sent]

theorem send_all_bytessent (E : Env) (calls : List Call) :
    ∀ c : Channel, (∀ k ∈ calls, k.mask &&& E.CONTROL_PACKET = 0) →
      (send_all E c calls).bytessent = c.bytessent + (calls.map (fun k => k.len)).sum := by
  induction calls with
  | nil => intro c _; simp [send_all]
  | cons k ks ih =>
    intro c h
    have hk := h k (List.mem_cons_self _ _)
    have hks : ∀ k' ∈ ks, k'.mask &&& E.CONTROL_PACKET = 0 :=
      fun k' hk' => h k' (List.mem_cons_of_mem _ hk')
    have := ih (k.run E c) hks
    simp only [send_all, List.foldl_cons] at this ⊢
    rw [this, Call.run, send_data_bytessent, account_bytessent E c _ _ _ hk]
    simp [Nat.add_assoc]

theorem send_all_calls_sent (E : Env) (t : Nat) (calls : List Call) :
    ∀ c : Channel,
      (∀ k ∈ calls, k.mask &&& E.CONTROL_PACKET = 0 ∧ k.target = t ∧
        k.mask &&& (E.FAST_CALL ||| E.STANDARD_CALL) ≠ 0) →
      (send_all E c calls).calls_sent t = c.calls_sent t + calls.length := by
  induction calls with
  | nil => intro c _; simp [send_all]
  | cons k ks ih =>
    intro c h
    obtain ⟨hk, hkt, hkc⟩ := h k (List.mem_cons_self _ _)
    have := ih (k.run E c) (fun k' hk' => h k' (List.mem_cons_of_mem _ hk'))
    simp only [send_all, List.foldl_cons] at this ⊢
    rw [this, Call.run, send_data_calls_sent, account_calls_sent E c _ _ _ hk]
    simp [hkt, hkc]
    omega

/-- C1: a byte-array `send_data` with CONTROL set changes neither counter;
with CONTROL unset it adds `len` to the sent-bytes counter and adds one to the
calls-sent counter of its target exactly when FAST_CALL or STANDARD_CALL is
set; so a sequence of sends with CONTROL unset adds the total payload length
to the sent-bytes counter, and, when every send is a call to `t`, the number
of sends to the calls-sent counter of `t`. -/
theorem send_data_accounting (E : Env) (c : Channel) (target mask : Nat) (data : List Byte)
    (len key : Nat) (sendlock_free : Bool) (t : Nat) (calls : List Call) :
    (mask &&& E.CONTROL_PACKET ≠ 0 →
      (send_data E c target mask data len key sendlock_free).bytessent = c.bytessent ∧
      (send_data E c target mask data len key sendlock_free).calls_sent = c.calls_sent) ∧
    (mask &&& E.CONTROL_PACKET = 0 →
      (send_data E c target mask data len key sendlock_free).bytessent = c.bytessent + len ∧
      (send_data E c target mask data len key sendlock_free).calls_sent target
        = c.calls_sent target
          + (if mask &&& (E.FAST_CALL ||| E.STANDARD_CALL) ≠ 0 then 1 else 0) ∧
      ∀ u, u ≠ target →
        (send_data E c target mask data len key sendlock_free).calls_sent u = c.calls_sent u) ∧
    ((∀ k ∈ calls, k.mask &&& E.CONTROL_PACKET = 0) →
      (send_all E c calls).bytessent = c.bytessent + (calls.map (fun k => k.len)).sum) ∧
    ((∀ k ∈ calls, k.mask &&& E.CONTROL_PACKET = 0 ∧ k.target = t ∧
        k.mask &&& (E.FAST_CALL ||| E.STANDARD_CALL) ≠ 0) →
      (send_all E c calls).calls_sent t = c.calls_sent t + calls.length) := by
  refine ⟨fun h => ?_, fun h => ⟨?_, ?_, fun u hu => ?_⟩, send_all_bytessent E calls c,
    send_all_calls_sent E t calls c⟩
  · rw [send_data_bytessent, send_data_calls_sent, account_control_set E c _ _ _ h]
    exact ⟨rfl, rfl⟩
  · rw [send_data_bytessent, account_bytessent E c _ _ _ h]
  · rw [send_data_calls_sent, account_calls_sent E c _ _ _ h]
    simp
  · rw [send_data_calls_sent, account_calls_sent E c _ _ _ h]
    simp [hu]

/-- C1 at the scenario of the specification: payload lengths 10, 20 and 5 sent
as standard calls give sent-bytes 35 and calls-sent 3. -/
theorem send_data_accounting_witness :
    (send_all E0 c0 scenario).bytessent = 35 ∧ (send_all E0 c0 scenario).calls_sent 1 = 3 := by
  have h := send_data_accounting E0 c0 1 1 [] 0 0 true 1 scenario
  exact ⟨h.2.2.1 (by decide), h.2.2.2 (by decide)⟩

/-- C7: `set_option` with name "nanosecond_wait" returns the old
`nanosecond_wait` and stores the new value there and nowhere else; with name
"wait_count_bytes" it does the same for `wait_count_bytes`; with any other
name it returns 0 and leaves the channel as it is. -/
theorem setOption_spec (c : Channel) (opt : String) (val : Nat) :
    (opt = "nanosecond_wait" →
      setOption c opt val = (c.nanosecond_wait, { c with nanosecond_wait := val }) ∧
      (setOption c opt val).2.wait_count_bytes = c.wait_count_bytes) ∧
    (opt = "wait_count_bytes" →
      setOption c opt val = (c.wait_count_bytes, { c with wait_count_bytes := val }) ∧
      (setOption c opt val).2.nanosecond_wait = c.nanosecond_wait) ∧
    (opt ≠ "nanosecond_wait" → opt ≠ "wait_count_bytes" → setOption c opt val = (0, c)) := by
  refine ⟨fun h => ?_, fun h => ?_, fun h1 h2 => ?_⟩
  · subst h; simp [setOption]
  · subst h
    have : ("wait_count_bytes" : String) ≠ "nanosecond_wait" := by decide
    simp [setOption, this]
  · simp [setOption, h1, h2]

/-- C7 on a concrete channel: the three kinds of option name. -/
theorem setOption_spec_witness :
    (setOption c0 "nanosecond_wait" 9).1 = 0 ∧
    (setOption c0 "nanosecond_wait" 9).2.nanosecond_wait = 9 ∧
    (setOption c0 "wait_count_bytes" 7).2.wait_count_bytes = 7 ∧
    setOption c0 "other" 3 = (0, c0) := by
  have h1 := (setOption_spec c0 "nanosecond_wait" 9).1 rfl
  have h2 := (setOption_spec c0 "wait_count_bytes" 7).2.1 rfl
  have h3 := (setOption_spec c0 "other" 3).2.2 (by decide) (by decide)
  refine ⟨?_, ?_, ?_, h3⟩
  · rw [h1.1]; rfl
  · rw [h1.1]
  · rw [h2.1]

/-! ## Theorems, part 2: no data loss -/

theorem wire_transport_call (c : Channel) (t : Nat) :
    (transport_call c t).wire = c.wire ++ c.sendbuffer.str := by
  simp [transport_call, Channel.wire]

theorem shrink_or_clear_fields (c : Channel) :
    (shrink_or_clear c).sendbuffer.str = [] ∧
    (shrink_or_clear c).writebuffer = c.writebuffer ∧
    (shrink_or_clear c).transport = c.transport ∧
    (shrink_or_clear c).procid = c.procid := by
  unfold shrink_or_clear
  split_ifs <;> simp [Buffer.clear, Buffer.clearTo]

theorem account_fields (E : Env) (c : Channel) (target mask len : Nat) :
    (account E c target mask len).writebuffer = c.writebuffer ∧
    (account E c target mask len).sendbuffer = c.sendbuffer ∧
    (account E c target mask len).transport = c.transport ∧
    (account E c target mask len).procid = c.procid := by
  unfold account
  split_ifs <;> simp

theorem rate_update_fields (E : Env) (c : Channel) (n now : Nat) :
    (rate_update E c n now).writebuffer = c.writebuffer ∧
    (rate_update E c n now).sendbuffer = c.sendbuffer ∧
    (rate_update E c n now).transport = c.transport ∧
    (rate_update E c n now).procid = c.procid := by
  unfold rate_update
  split_ifs <;> simp

/-- What one step keeps: the send buffer is empty again afterwards, the sender
id is the same, and wire plus write buffer grow by exactly the step's frame. -/
theorem step_frame (E : Env) (c : Channel) (st : Step) (hs : c.sendbuffer.str = []) :
    (st.run E c).sendbuffer.str = [] ∧ (st.run E c).procid = c.procid ∧
    (st.run E c).wire ++ (st.run E c).writebuffer.str
      = c.wire ++ c.writebuffer.str ++ st.frame E c.procid := by
  cases st with
  | send k =>
    obtain ⟨hw, hsb, ht, hp⟩ := account_fields E c k.target k.mask k.len
    have hwire : (account E c k.target k.mask k.len).wire = c.wire := by
      simp [Channel.wire, ht]
    simp only [Step.run, Call.run, send_data, Step.frame, build_hdr, hp]
    split_ifs with h1 h2
    · obtain ⟨a1, a2, a3, a4⟩ := shrink_or_clear_fields
        (transport_call (swap_buffers (append_packet E (account E c k.target k.mask k.len)
          { len := k.len, src := c.procid, sequentialization_key := k.key,
            packet_type_mask := k.mask } k.data k.len)) k.target)
      refine ⟨a1, ?_, ?_⟩
      · rw [a4]; simp [transport_call, swap_buffers, append_packet, hp]
      · have : (shrink_or_clear (transport_call (swap_buffers (append_packet E
            (account E c k.target k.mask k.len)
            { len := k.len, src := c.procid, sequentialization_key := k.key,
              packet_type_mask := k.mask } k.data k.len)) k.target)).wire
            = (transport_call (swap_buffers (append_packet E
            (account E c k.target k.mask k.len)
            { len := k.len, src := c.procid, sequentialization_key := k.key,
              packet_type_mask := k.mask } k.data k.len)) k.target).wire := by
          simp [Channel.wire, a3]
        rw [this, wire_transport_call, a2]
        simp [transport_call, swap_buffers, append_packet, Buffer.write, hw, hsb, hs,
          Channel.wire, ht]
    · simp [signal, append_packet, Buffer.write, hw, hsb, hs, hp, Channel.wire, ht]
    · simp [append_packet, Buffer.write, hw, hsb, hs, hp, Channel.wire, ht]
  | drain now =>
    simp only [Step.run, send_loop_iter, Step.frame, List.append_nil]
    split_ifs with h
    · obtain ⟨r1, r2, r3, r4⟩ := rate_update_fields E
        (shrink_or_clear (transport_call (swap_buffers c) (swap_buffers c).target))
        (swap_buffers c).sendbuffer.len now
      obtain ⟨a1, a2, a3, a4⟩ := shrink_or_clear_fields
        (transport_call (swap_buffers c) (swap_buffers c).target)
      refine ⟨by rw [r2, a1], by rw [r4, a4]; rfl, ?_⟩
      simp only [Channel.wire, r1, r3, a2, a3]
      simp [transport_call, swap_buffers, hs]
    · exact ⟨hs, rfl, rfl⟩

theorem run_steps_frames (E : Env) (steps : List Step) :
    ∀ c : Channel, c.sendbuffer.str = [] →
      (run_steps E c steps).wire ++ (run_steps E c steps).writebuffer.str
        = c.wire ++ c.writebuffer.str ++ (steps.map (Step.frame E c.procid)).flatten := by
  induction steps with
  | nil => intro c _; simp [run_steps]
  | cons st sts ih =>
    intro c hs
    obtain ⟨h1, h2, h3⟩ := step_frame E c st hs
    have := ih (st.run E c) h1
    simp only [run_steps, List.foldl_cons] at this ⊢
    rw [this, h3, h2]
    simp

/-- C4: from a channel whose two buffers are empty, after any finite sequence
of byte-array sends (fast path or append-only, as the try-lock decides) and
flush-loop passes, the bytes handed to the transport in call order followed
by the write buffer are exactly the frames enqueued, in enqueue order, each
frame being the header (payload length, sender id, sequentialization key,
type mask) followed by its payload. -/
theorem no_data_loss (E : Env) (c : Channel) (steps : List Step)
    (hw : c.writebuffer.str = []) (hs : c.sendbuffer.str = []) :
    (run_steps E c steps).wire ++ (run_steps E c steps).writebuffer.str
      = c.wire ++ (steps.map (Step.frame E c.procid)).flatten := by
  rw [run_steps_frames E steps c hs, hw]
  simp

/-- C4 at the scenario of the specification with a flush-loop pass in the
middle: the headers carry the lengths 10, 20 and 5 and the frames arrive
whole and in order. -/
theorem no_data_loss_witness :
    (run_steps E0 c0 [.send scenario[0], .send scenario[1], .drain 3, .send scenario[2]]).wire
      ++ (run_steps E0 c0
          [.send scenario[0], .send scenario[1], .drain 3, .send scenario[2]]).writebuffer.str
      = ([10, 0, 0, 1] ++ List.replicate 10 0) ++ ([20, 0, 1, 1] ++ List.replicate 20 0)
        ++ ([5, 0, 2, 1] ++ List.replicate 5 0) := by
  rw [no_data_loss E0 c0 _ (by decide) (by decide)]
  decide

/-! ## Theorems, part 3: the stream overload -/

theorem readsome_length_le (s : IStream) (n : Nat) : (s.readsome n).1.length ≤ n := by
  unfold IStream.readsome
  split_ifs with hg
  · cases h : s.avail with
    | nil => simp
    | cons c cs =>
      simp only
      split_ifs with hc
      · exact hc
      · simp
  · simp

theorem readsome_flatten (s : IStream) (n : Nat) :
    (s.readsome n).1 ++ (s.readsome n).2.avail.flatten = s.avail.flatten := by
  unfold IStream.readsome
  split_ifs with hg
  · cases h : s.avail with
    | nil => simp [h]
    | cons c cs =>
      simp only
      split_ifs with hc
      · simp
      · simp [← List.append_assoc]
  · simp

theorem readsome_eof (s : IStream) (n : Nat) (h : s.good = false → s.avail = []) :
    (s.readsome n).2.good = false → (s.readsome n).2.avail = [] := by
  unfold IStream.readsome
  split_ifs with hg
  · cases ha : s.avail with
    | nil => simp [ha]
    | cons c cs =>
      simp only
      split_ifs with hc <;> simp [hg]
  · simpa using h

theorem readsome_todo (s : IStream) (n : Nat) (hn : 0 < n) (hg : s.good = true) :
    (s.readsome n).2.todo < s.todo := by
  unfold IStream.readsome
  rw [if_pos hg]
  cases ha : s.avail with
  | nil => simp [IStream.todo, IStream.cost, hg]
  | cons c cs =>
    simp only
    split_ifs with hc
    · simp [IStream.todo, IStream.cost, hg, ha]
      omega
    · have hl : (c.drop n).length < c.length := by
        simp only [List.length_drop]; omega
      simp [IStream.todo, IStream.cost, hg, ha]
      omega

theorem growInv_init (chunks : List (List Byte)) :
    GrowInv chunks.flatten (Grow.init (IStream.ofChunks chunks)) where
  bytes := by simp [Grow.init, IStream.ofChunks]
  len_eq := by simp [Grow.init]
  lt_cap := by simp [Grow.init]
  cap_pow := ⟨0, by simp [Grow.init]⟩
  cap_le := by simp [Grow.init]
  eof := by simp [Grow.init, IStream.ofChunks]

theorem growInv_len_le {bs : List Byte} {g : Grow} (h : GrowInv bs g) : g.len ≤ bs.length := by
  rw [← h.bytes, h.len_eq]; simp

/-- One pass of the loop body under the invariant, written without the
machine arithmetic. -/
theorem grow_step_eq {bs : List Byte} {g : Grow} (h : GrowInv bs g) (hbs : bs.length < 2 ^ 63) :
    grow_step g =
      { istrm := (g.istrm.readsome (g.cursize - g.len)).2
        data := g.data ++ (g.istrm.readsome (g.cursize - g.len)).1
        len := g.len + (g.istrm.readsome (g.cursize - g.len)).1.length
        cursize :=
          if g.len + (g.istrm.readsome (g.cursize - g.len)).1.length = g.cursize then
            2 * g.cursize
          else g.cursize } := by
  have hl := growInv_len_le h
  have hlt := h.lt_cap
  have hcap := h.cap_le
  have hn : (g.cursize + 2 ^ 64 - g.len) % 2 ^ 64 = g.cursize - g.len := by omega
  have hr := readsome_length_le g.istrm (g.cursize - g.len)
  have htake : g.data.take g.len = g.data := by rw [h.len_eq]; simp
  unfold grow_step
  simp only [hn, htake]
  have hlen : (g.len + (g.istrm.readsome (g.cursize - g.len)).1.length) % 2 ^ 64
      = g.len + (g.istrm.readsome (g.cursize - g.len)).1.length := by omega
  rw [hlen]
  by_cases hfull : g.len + (g.istrm.readsome (g.cursize - g.len)).1.length = g.cursize
  · have h0 : (g.cursize + 2 ^ 64
        - (g.len + (g.istrm.readsome (g.cursize - g.len)).1.length)) % 2 ^ 64 = 0 := by omega
    have hle : g.len + (g.istrm.readsome (g.cursize - g.len)).1.length ≤ bs.length := by
      have := readsome_flatten g.istrm (g.cursize - g.len)
      have hb := h.bytes
      rw [← this, ← List.append_assoc] at hb
      rw [← hb, h.len_eq]
      simp
    have h2 : g.cursize * 2 % 2 ^ 64 = 2 * g.cursize := by omega
    rw [if_pos h0, if_pos hfull, h2]
  · have h0 : ¬ (g.cursize + 2 ^ 64
        - (g.len + (g.istrm.readsome (g.cursize - g.len)).1.length)) % 2 ^ 64 = 0 := by omega
    rw [if_neg h0, if_neg hfull]

theorem grow_step_inv {bs : List Byte} {g : Grow} (h : GrowInv bs g) (hbs : bs.length < 2 ^ 63) :
    GrowInv bs (grow_step g) := by
  have hr := readsome_length_le g.istrm (g.cursize - g.len)
  have hlt := h.lt_cap
  have hcap := h.cap_le
  rw [grow_step_eq h hbs]
  refine ⟨?_, ?_, ?_, ?_, ?_, ?_⟩
  · simp only [List.append_assoc]
    rw [readsome_flatten, h.bytes]
  · simp [h.len_eq]
  · simp only
    split_ifs with hf <;> omega
  · obtain ⟨j, hj⟩ := h.cap_pow
    simp only
    split_ifs with hf
    · exact ⟨j + 1, by rw [hj, pow_succ]; ring⟩
    · exact ⟨j, hj⟩
  · simp only
    split_ifs with hf <;> omega
  · exact readsome_eof g.istrm _ h.eof

theorem grow_iter_inv (chunks : List (List Byte)) (hbs : chunks.flatten.length < 2 ^ 63)
    (k : Nat) : GrowInv chunks.flatten (grow_step^[k] (Grow.init (IStream.ofChunks chunks))) := by
  induction k with
  | zero => exact growInv_init chunks
  | succ k ih =>
    rw [Function.iterate_succ_apply']
    exact grow_step_inv ih hbs

theorem read_unknown_spec (bs : List Byte) (hbs : bs.length < 2 ^ 63) :
    ∀ (fuel : Nat) (g : Grow), GrowInv bs g → g.istrm.todo < fuel →
      ∃ g1, read_unknown fuel g = some g1 ∧ g1.data = bs ∧ g1.len = bs.length := by
  intro fuel
  induction fuel with
  | zero => intro g _ hf; omega
  | succ fuel ih =>
    intro g h hf
    unfold read_unknown
    by_cases hg : g.istrm.good = true
    · rw [if_pos hg]
      apply ih _ (grow_step_inv h hbs)
      have hpos : 0 < g.cursize - g.len := by have := h.lt_cap; omega
      have := readsome_todo g.istrm _ hpos hg
      rw [grow_step_eq h hbs]
      simp only
      omega
    · rw [if_neg hg]
      have ha := h.eof (by simpa using hg)
      have hb := h.bytes
      rw [ha] at hb
      simp only [List.flatten_nil, List.append_nil] at hb
      exact ⟨g, rfl, hb, by rw [h.len_eq, hb]⟩

theorem read_unknown_iterate :
    ∀ (fuel : Nat) (g g1 : Grow), read_unknown fuel g = some g1 →
      ∃ k, g1 = grow_step^[k] g ∧ g1.istrm.good = false ∧
        ∀ j, j < k → (grow_step^[j] g).istrm.good = true := by
  intro fuel
  induction fuel with
  | zero => intro g g1 h; simp [read_unknown] at h
  | succ fuel ih =>
    intro g g1 h
    unfold read_unknown at h
    by_cases hg : g.istrm.good = true
    · rw [if_pos hg] at h
      obtain ⟨k, hk, hb, hj⟩ := ih _ _ h
      refine ⟨k + 1, by rw [Function.iterate_succ_apply]; exact hk, hb, fun j hlt => ?_⟩
      cases j with
      | zero => simpa using hg
      | succ j =>
        rw [Function.iterate_succ_apply]
        exact hj j (by omega)
    · rw [if_neg hg] at h
      cases h
      exact ⟨0, rfl, by simpa using hg, fun j hlt => by omega⟩

/-- C10: with the unknown-length sentinel and a readable stream that delivers
the chunks `chunks` (fewer than 2^63 bytes in all) and then stops being
readable, the stream overload returns, and what it does is one byte-array
`send_data` with the stream's bytes in order as payload and their number as
byte count; the loop ends in the state after some number `k` of passes
through its body; the temporary block starts at 128 bytes; at every loop
head the block size is 128 times a power of two and exceeds the number of
bytes stored, the bytes the next read stores still fit, and the block size
doubles exactly when that read fills the block, else stays. -/
theorem send_data_istream_unknown_len (E : Env) (c : Channel) (mask : Nat)
    (chunks : List (List Byte)) (key : Nat) (sendlock_free : Bool) (fuel : Nat)
    (hbs : chunks.flatten.length < 2 ^ 63)
    (hfuel : chunks.length + chunks.flatten.length + 2 ≤ fuel) :
    send_data_istream E c c.target mask (IStream.ofChunks chunks) SIZE_MAX key sendlock_free fuel
      = .ok (send_data E c c.target mask chunks.flatten chunks.flatten.length key
          sendlock_free) ∧
    (∃ k, read_unknown fuel (Grow.init (IStream.ofChunks chunks))
      = some (grow_step^[k] (Grow.init (IStream.ofChunks chunks)))) ∧
    (Grow.init (IStream.ofChunks chunks)).cursize = 128 ∧
    ∀ k : Nat,
      (grow_step^[k] (Grow.init (IStream.ofChunks chunks))).data.length
        = (grow_step^[k] (Grow.init (IStream.ofChunks chunks))).len ∧
      (grow_step^[k] (Grow.init (IStream.ofChunks chunks))).len
        < (grow_step^[k] (Grow.init (IStream.ofChunks chunks))).cursize ∧
      (∃ j, (grow_step^[k] (Grow.init (IStream.ofChunks chunks))).cursize = 128 * 2 ^ j) ∧
      (grow_step^[k + 1] (Grow.init (IStream.ofChunks chunks))).len
        ≤ (grow_step^[k] (Grow.init (IStream.ofChunks chunks))).cursize ∧
      (grow_step^[k + 1] (Grow.init (IStream.ofChunks chunks))).cursize
        = if (grow_step^[k + 1] (Grow.init (IStream.ofChunks chunks))).len
              = (grow_step^[k] (Grow.init (IStream.ofChunks chunks))).cursize
          then 2 * (grow_step^[k] (Grow.init (IStream.ofChunks chunks))).cursize
          else (grow_step^[k] (Grow.init (IStream.ofChunks chunks))).cursize := by
  have htodo : (Grow.init (IStream.ofChunks chunks)).istrm.todo < fuel := by
    simp only [Grow.init, IStream.ofChunks, IStream.todo, IStream.cost, if_true]
    omega
  obtain ⟨g1, hg1, hd, hl⟩ :=
    read_unknown_spec chunks.flatten hbs fuel _ (growInv_init chunks) htodo
  refine ⟨?_, ?_, rfl, fun k => ?_⟩
  · simp [send_data_istream, ASSERT_EQ, hg1, hd, hl]
  · obtain ⟨k, hk, _, _⟩ := read_unknown_iterate fuel _ _ hg1
    exact ⟨k, by rw [hg1, hk]⟩
  · have h := grow_iter_inv chunks hbs k
    have hr := readsome_length_le (grow_step^[k] (Grow.init (IStream.ofChunks chunks))).istrm
      ((grow_step^[k] (Grow.init (IStream.ofChunks chunks))).cursize
        - (grow_step^[k] (Grow.init (IStream.ofChunks chunks))).len)
    have hlt := h.lt_cap
    refine ⟨h.len_eq.symm, h.lt_cap, h.cap_pow, ?_, ?_⟩
    · rw [Function.iterate_succ_apply', grow_step_eq h hbs]
      simp only
      omega
    · rw [Function.iterate_succ_apply', grow_step_eq h hbs]

/-- C10 on a stream that delivers 130 bytes in chunks of 100, 0 and 30: the
payload is the 130 bytes, and the block doubles from 128 to 256 on the way. -/
theorem send_data_istream_unknown_len_witness :
    send_data_istream E0 c0 c0.target 1
        (IStream.ofChunks [List.replicate 100 1, [], List.replicate 30 2]) SIZE_MAX 0 true 140
      = .ok (send_data E0 c0 c0.target 1 (List.replicate 100 1 ++ List.replicate 30 2) 130 0
          true) ∧
    (grow_step^[3] (Grow.init
      (IStream.ofChunks [List.replicate 100 1, [], List.replicate 30 2]))).cursize = 256 := by
  have h := send_data_istream_unknown_len E0 c0 1
    [List.replicate 100 1, [], List.replicate 30 2] 0 true 140 (by simp) (by simp)
  refine ⟨?_, by decide⟩
  have e : [List.replicate 100 (1 : Byte), [], List.replicate 30 2].flatten
      = List.replicate 100 1 ++ List.replicate 30 2 := by decide
  have e2 : (List.replicate 100 (1 : Byte) ++ List.replicate 30 2).length = 130 := by decide
  rw [h.1, e, e2]

/-! ## Theorems, part 4: what the code does where it departs from its contract -/

/-- The known-length loop on a readable stream that holds at least `len`
bytes: it returns, it has taken exactly `len` bytes off the stream, and the
count it leaves in `len` is zero. -/
theorem read_known_spec :
    ∀ (fuel : Nat) (istrm : IStream) (cbuffer : List Byte) (len : Nat),
      istrm.good = true → len ≤ istrm.avail.flatten.length → len < 2 ^ 64 →
      istrm.todo < fuel →
      ∃ s1 cb1, read_known fuel istrm cbuffer len = some (s1, cb1, 0) ∧
        s1.avail.flatten = istrm.avail.flatten.drop len := by
  intro fuel
  induction fuel with
  | zero => intro s _ _ _ _ _ hf; omega
  | succ fuel ih =>
    intro s cb len hg hle hlt hf
    unfold read_known
    by_cases hpos : len > 0
    · rw [if_pos ⟨hpos, hg⟩]
      have htodo := readsome_todo s len hpos hg
      simp only
      cases ha : s.avail with
      | nil => simp [ha] at hle; omega
      | cons c cs =>
        by_cases hc : c.length ≤ len
        · have hr : s.readsome len = (c, { s with avail := cs }) := by
            simp [IStream.readsome, hg, ha, hc]
          rw [hr] at htodo
          rw [hr]
          simp only at htodo ⊢
          have hlen : (len + 2 ^ 64 - c.length) % 2 ^ 64 = len - c.length := by omega
          rw [hlen]
          have hle2 : len - c.length ≤ cs.flatten.length := by
            simp [ha] at hle; simp; omega
          obtain ⟨s1, cb1, h1, h2⟩ := ih { s with avail := cs } (c ++ cb.drop c.length)
            (len - c.length) hg hle2 (by omega) (by omega)
          refine ⟨s1, cb1, h1, ?_⟩
          rw [h2]
          simp only [List.flatten_cons]
          rw [List.drop_append_eq_append_drop, List.drop_eq_nil_of_le hc, List.nil_append]
        · have hr : s.readsome len = (c.take len, { s with avail := c.drop len :: cs }) := by
            simp [IStream.readsome, hg, ha, hc]
          rw [hr] at htodo
          rw [hr]
          simp only
          have hl : (c.take len).length = len := by simp; omega
          have hlen : (len + 2 ^ 64 - (c.take len).length) % 2 ^ 64 = 0 := by rw [hl]; omega
          rw [hlen]
          cases fuel with
          | zero => omega
          | succ fuel =>
            refine ⟨{ s with avail := c.drop len :: cs },
              c.take len ++ cb.drop (c.take len).length, by simp [read_known], ?_⟩
            simp only [List.flatten_cons]
            rw [List.drop_append_eq_append_drop]
            have : len - c.length = 0 := by omega
            simp [this]
    · have h0 : len = 0 := by omega
      subst h0
      exact ⟨s, cb, by simp, by simp⟩

/-- The known-length branch never passes the requested length on: whenever
the stream supplies at least `len` bytes, the byte-array overload is called
with byte count 0. -/
theorem known_len_delegates_zero (E : Env) (c : Channel) (mask : Nat)
    (chunks : List (List Byte)) (len key : Nat) (sendlock_free : Bool) (fuel : Nat)
    (hlen : len < SIZE_MAX) (hsup : len ≤ chunks.flatten.length)
    (hfuel : chunks.length + chunks.flatten.length + 2 ≤ fuel) :
    ∃ cbuffer, send_data_istream E c c.target mask (IStream.ofChunks chunks) len key
        sendlock_free fuel = .ok (send_data E c c.target mask cbuffer 0 key sendlock_free) := by
  have hne : len ≠ SIZE_MAX := Nat.ne_of_lt hlen
  have hlt : len < 2 ^ 64 := by unfold SIZE_MAX at hlen; omega
  have htodo : (IStream.ofChunks chunks).todo < fuel := by
    simp only [IStream.ofChunks, IStream.todo, IStream.cost, if_true]
    omega
  obtain ⟨s1, cb1, h1, _⟩ := read_known_spec fuel (IStream.ofChunks chunks)
    (List.replicate len 0) len rfl hsup hlt htodo
  exact ⟨cb1, by simp [send_data_istream, ASSERT_EQ, hne, h1]⟩

/-- C2, the code at a mismatched target (channel bound to 1, argument 2): the
stream overload stops at its assertion, but the byte-array overload returns
normally, has counted the call and the byte for target 2, and on the fast
path has handed the frame to the transport for target 2, on the slow path
has left it in the write buffer. -/
theorem send_data_target_mismatch :
    c0.target = 1 ∧
    send_data_istream E0 c0 2 1 (IStream.ofChunks [[7]]) 1 0 true 5 = .error .assertion ∧
    (send_data E0 c0 2 1 [7] 1 0 true).transport = [(2, [1, 0, 0, 1, 7])] ∧
    (send_data E0 c0 2 1 [7] 1 0 true).bytessent = 1 ∧
    (send_data E0 c0 2 1 [7] 1 0 true).calls_sent 2 = 1 ∧
    (send_data E0 c0 2 1 [7] 1 0 false).writebuffer.str = [1, 0, 0, 1, 7] := by
  refine ⟨rfl, rfl, ?_, ?_, ?_, ?_⟩ <;> decide

/-- C3, the code at `len = 3` on a stream holding the bytes 1, 2, 3: whether
they come in one read or in two, the byte-array overload is called with byte
count 0, so the frame on the wire is a header with payload length 0 and no
payload and nothing is added to the sent-bytes counter, where the contract
asks for the frame with payload length 3 and payload 1, 2, 3; and with two
reads the second one has overwritten the first in `cbuffer`. -/
theorem send_data_istream_known_len :
    send_data_istream E0 c0 1 1 (IStream.ofChunks [[1, 2, 3]]) 3 0 true 5
      = .ok (send_data E0 c0 1 1 [1, 2, 3] 0 0 true) ∧
    (send_data E0 c0 1 1 [1, 2, 3] 0 0 true).transport = [(1, [0, 0, 0, 1])] ∧
    (send_data E0 c0 1 1 [1, 2, 3] 0 0 true).bytessent = 0 ∧
    (send_data E0 c0 1 1 [1, 2, 3] 3 0 true).transport = [(1, [3, 0, 0, 1, 1, 2, 3])] ∧
    send_data_istream E0 c0 1 1 (IStream.ofChunks [[1], [2, 3]]) 3 0 true 5
      = .ok (send_data E0 c0 1 1 [2, 3, 0] 0 0 true) := by
  refine ⟨rfl, ?_, ?_, ?_, rfl⟩ <;> decide

/-! ## Theorems, part 5: the two mutexes -/

theorem lockInv_init (ch : Channel) : LockInv (Sys.init ch) := by
  constructor <;> simp [Sys.init, FPc.holds_sendlock, FPc.holds_lock, PPc.holds_sendlock,
    PPc.holds_lock]

/-- A producer step keeps the invariant when the new program point and the
new holders agree for that producer and nothing changes for other threads. -/
theorem lockInv_goto (s : Sys) (h : LockInv s) (i : Nat) (p : PPc) (ch : Channel)
    (L S : Option Tid)
    (hS : p.holds_sendlock = true ↔ S = some (.prod i))
    (hS1 : ∀ t, t ≠ .prod i → (S = some t ↔ s.sendlock = some t))
    (hL : p.holds_lock = true ↔ L = some (.prod i))
    (hL1 : ∀ t, t ≠ .prod i → (L = some t ↔ s.lock = some t)) :
    LockInv ({ s with ch := ch, lock := L, sendlock := S }.goto i p) := by
  obtain ⟨h1, h2, h3, h4⟩ := h
  refine ⟨?_, fun j => ?_, ?_, fun j => ?_⟩
  · simp only [Sys.goto]
    rw [h1, hS1 _ (by simp)]
  · by_cases hj : j = i
    · subst hj; simpa [Sys.goto] using hS
    · simp only [Sys.goto, Function.update_noteq hj]
      rw [h2, hS1 _ (by simpa using hj)]
  · simp only [Sys.goto]
    rw [h3, hL1 _ (by simp)]
  · by_cases hj : j = i
    · subst hj; simpa [Sys.goto] using hL
    · simp only [Sys.goto, Function.update_noteq hj]
      rw [h4, hL1 _ (by simpa using hj)]

/-- The same for a step of the flush thread. -/
theorem lockInv_fl (s : Sys) (h : LockInv s) (p : FPc) (ch : Channel) (L S : Option Tid)
    (hS : p.holds_sendlock = true ↔ S = some .flush)
    (hS1 : ∀ t, t ≠ .flush → (S = some t ↔ s.sendlock = some t))
    (hL : p.holds_lock = true ↔ L = some .flush)
    (hL1 : ∀ t, t ≠ .flush → (L = some t ↔ s.lock = some t)) :
    LockInv { s with ch := ch, lock := L, sendlock := S, fl := p } := by
  obtain ⟨h1, h2, h3, h4⟩ := h
  refine ⟨hS, fun j => ?_, hL, fun j => ?_⟩
  · simp only
    rw [h2, hS1 _ (by simp)]
  · simp only
    rw [h4, hL1 _ (by simp)]

theorem step_call_inv (E : Env) (s : Sys) (i : Nat) (a : Args) (h : LockInv s) :
    LockInv (step_call E s i a) := by
  have h2i := h.pr_send i
  have h4i := h.pr_lock i
  unfold step_call
  split_ifs with hp
  · rw [hp] at h2i h4i
    simp only [PPc.holds_sendlock, PPc.holds_lock] at h2i h4i
    refine lockInv_goto s h i _ _ _ _ ?_ ?_ ?_ ?_ <;>
      simp_all [PPc.holds_sendlock, PPc.holds_lock]
  · exact h

theorem step_prod_inv (E : Env) (s : Sys) (i : Nat) (h : LockInv s) :
    LockInv (step_prod E s i) := by
  have h2i := h.pr_send i
  have h4i := h.pr_lock i
  unfold step_prod
  cases hp : s.pr i <;> rw [hp] at h2i h4i <;>
    simp only [PPc.holds_sendlock, PPc.holds_lock] at h2i h4i <;> simp only []
  all_goals (try split_ifs with hc)
  all_goals
    first
    | exact h
    | (refine lockInv_goto s h i _ _ _ _ ?_ ?_ ?_ ?_ <;>
        simp_all [PPc.holds_sendlock, PPc.holds_lock] <;> exact fun t ht e => ht e.symm)

theorem step_flush_inv (E : Env) (s : Sys) (now : Nat) (h : LockInv s) :
    LockInv (step_flush E s now) := by
  have h1 := h.fl_send
  have h3 := h.fl_lock
  unfold step_flush
  cases hp : s.fl <;> rw [hp] at h1 h3 <;>
    simp only [FPc.holds_sendlock, FPc.holds_lock] at h1 h3 <;> simp only []
  all_goals (try split_ifs with hc)
  all_goals
    first
    | exact h
    | (refine lockInv_fl s h _ _ _ _ ?_ ?_ ?_ ?_ <;>
        simp_all [FPc.holds_sendlock, FPc.holds_lock] <;> exact fun t ht e => ht e.symm)

theorem step_shutdown_inv (s : Sys) (h : LockInv s) : LockInv (step_shutdown s) := by
  unfold step_shutdown
  split_ifs
  · exact ⟨h.fl_send, h.pr_send, h.fl_lock, h.pr_lock⟩
  · exact h

theorem step_inv (E : Env) (s : Sys) (l : Label) (h : LockInv s) : LockInv (step E s l) := by
  cases l with
  | call i a => exact step_call_inv E s i a h
  | prod i => exact step_prod_inv E s i h
  | flush now => exact step_flush_inv E s now h
  | shutdown => exact step_shutdown_inv s h

theorem foldl_inv (E : Env) (sched : List Label) :
    ∀ s : Sys, LockInv s → LockInv (sched.foldl (step E) s) := by
  induction sched with
  | nil => intro s h; exact h
  | cons l ls ih => intro s h; exact ih _ (step_inv E s l h)

theorem run_inv (E : Env) (ch : Channel) (sched : List Label) : LockInv (run E ch sched) :=
  foldl_inv E sched _ (lockInv_init ch)

theorem holds_of_transport (s : Sys) (h : LockInv s) (t : Tid)
    (ht : s.entering_transport t ∨ s.in_transport t) : s.sendlock = some t := by
  cases t with
  | flush =>
    apply h.fl_send.mp
    rcases ht with ht | ⟨n, ht⟩
    · have ht1 : s.fl = .l135 := ht
      simp [ht1, FPc.holds_sendlock]
    · simp [ht, FPc.holds_sendlock]
  | prod i =>
    apply (h.pr_send i).mp
    rcases ht with ⟨t, ht⟩ | ht
    · simp [ht, PPc.holds_sendlock]
    · have ht1 : s.pr i = .in_send := ht
      simp [ht1, PPc.holds_sendlock]

theorem release_only_at_unlock (E : Env) (s : Sys) (h : LockInv s) (t : Tid) (l : Label)
    (hpre : s.sendlock = some t) (hpost : (step E s l).sendlock ≠ some t) :
    s.at_sendlock_unlock t := by
  cases l with
  | call i a =>
    exfalso; apply hpost
    simp only [step, step_call]
    split_ifs <;> simpa [Sys.goto] using hpre
  | prod i =>
    have h2i := h.pr_send i
    simp only [step, step_prod] at hpost
    cases hp : s.pr i <;> rw [hp] at h2i hpost <;>
      simp only [PPc.holds_sendlock] at h2i <;> simp only [] at hpost
    case l110 =>
      have : t = .prod i := by
        have := h2i.mp trivial
        rw [hpre] at this
        exact Option.some.inj this
      subst this
      exact hp
    case l95 =>
      exfalso
      split_ifs at hpost with hc
      · rw [hc] at hpre; cases hpre
      · exact hpost (by simpa [Sys.goto] using hpre)
    all_goals (exfalso; try split_ifs at hpost)
    all_goals exact hpost (by simpa [Sys.goto] using hpre)
  | flush now =>
    have h1 := h.fl_send
    simp only [step, step_flush] at hpost
    cases hp : s.fl <;> rw [hp] at h1 hpost <;>
      simp only [FPc.holds_sendlock] at h1 <;> simp only [] at hpost
    case l156 =>
      have : t = .flush := by
        have := h1.mp trivial
        rw [hpre] at this
        exact Option.some.inj this
      subst this
      exact hp
    case l132 =>
      exfalso
      split_ifs at hpost with hc
      · rw [hc] at hpre; cases hpre
      · exact hpost hpre
    all_goals (exfalso; try split_ifs at hpost)
    all_goals exact hpost (by simpa using hpre)
  | shutdown =>
    exfalso; apply hpost
    simp only [step, step_shutdown]
    split_ifs <;> simpa using hpre

/-- C5: in every state any schedule of any number of producers and the flush
thread can reach, a thread that is about to call or is inside `comm->send`
holds `sendlock`; no two threads are inside `comm->send` together; and a step
takes `sendlock` away from its holder only when that holder is at its
`sendlock.unlock()`, the statement after the call has returned. -/
theorem transport_call_exclusive (E : Env) (ch : Channel) (sched : List Label) :
    (∀ t, (run E ch sched).entering_transport t ∨ (run E ch sched).in_transport t →
      (run E ch sched).sendlock = some t) ∧
    (∀ t u, (run E ch sched).in_transport t → (run E ch sched).in_transport u → t = u) ∧
    (∀ t l, (run E ch sched).sendlock = some t →
      (step E (run E ch sched) l).sendlock ≠ some t → (run E ch sched).at_sendlock_unlock t) := by
  have h := run_inv E ch sched
  refine ⟨fun t ht => holds_of_transport _ h t ht, fun t u ht hu => ?_,
    fun t l h1 h2 => release_only_at_unlock E _ h t l h1 h2⟩
  have a := holds_of_transport _ h t (Or.inr ht)
  have b := holds_of_transport _ h u (Or.inr hu)
  rw [a] at b
  exact Option.some.inj b

/-- C5 on a concrete schedule: producer 0 is inside `comm->send` and is the
holder of `sendlock`, and the flush thread's next step does not change that. -/
theorem transport_call_exclusive_witness :
    (run E0 c0 sched132).in_transport (.prod 0) ∧
    (run E0 c0 sched132).sendlock = some (.prod 0) ∧
    (step E0 (run E0 c0 sched132) (.flush 6)).sendlock = some (.prod 0) := by
  have hin : (run E0 c0 sched132).in_transport (.prod 0) := by
    show (run E0 c0 sched132).pr 0 = .in_send
    decide
  have h := transport_call_exclusive E0 c0 sched132
  refine ⟨hin, h.1 _ (Or.inr hin), ?_⟩
  by_contra hc
  have := h.2.2 (.prod 0) (.flush 6) (h.1 _ (Or.inr hin)) hc
  revert this
  show ¬ (run E0 c0 sched132).pr 0 = .l110
  decide

theorem waits_only_at_l132 (E : Env) (s : Sys) (l : Label) (hw : waits_for_sendlock E s l) :
    (∃ now, l = .flush now) ∧ s.fl = .l132 := by
  obtain ⟨hne, hfl, hpr, hmove⟩ := hw
  cases l with
  | call i a =>
    exfalso
    simp only [step, step_call] at hfl hpr hmove
    split_ifs at hfl hpr hmove with hp <;> simp_all [Sys.goto]
  | prod i =>
    exfalso
    have hpi := congrFun hpr i
    simp only [step, step_prod] at hfl hpr hmove hpi
    cases hp : s.pr i <;> rw [hp] at hfl hpr hmove hpi <;> simp only [] at hfl hpr hmove hpi
    all_goals (try split_ifs at hfl hpr hmove hpi)
    all_goals simp_all [Sys.goto]
  | flush now =>
    refine ⟨⟨now, rfl⟩, ?_⟩
    simp only [step, step_flush] at hfl hpr hmove
    cases hp : s.fl <;> rw [hp] at hfl hpr hmove <;> simp only [] at hfl hpr hmove
    all_goals exfalso
    all_goals (try split_ifs at hfl hpr hmove)
    all_goals simp_all
  | shutdown =>
    exfalso
    simp only [step, step_shutdown] at hfl hpr hmove
    split_ifs at hfl hpr hmove <;> simp_all

theorem try_lock_moves (E : Env) (s : Sys) (i t prev : Nat) (hp : s.pr i = .l95 t prev) :
    (step E s (.prod i)).pr i ≠ .l95 t prev := by
  simp only [step, step_prod, hp]
  split_ifs <;> simp [Sys.goto]

theorem sendlock_acquired_at (E : Env) (s : Sys) (l : Label) (t : Tid)
    (hpre : s.sendlock ≠ some t) (hpost : (step E s l).sendlock = some t) :
    (∃ i tg prev, l = .prod i ∧ t = .prod i ∧ s.pr i = .l95 tg prev) ∨
    (∃ now, l = .flush now ∧ t = .flush ∧ s.fl = .l132) := by
  cases l with
  | call i a =>
    exfalso; apply hpre
    simp only [step, step_call] at hpost
    split_ifs at hpost <;> simpa [Sys.goto] using hpost
  | prod i =>
    simp only [step, step_prod] at hpost
    cases hp : s.pr i <;> rw [hp] at hpost <;> simp only [] at hpost
    case l95 tg prev =>
      split_ifs at hpost with hc
      · left
        refine ⟨i, tg, prev, rfl, ?_, hp⟩
        simpa [Sys.goto] using hpost.symm
      · exact absurd (by simpa [Sys.goto] using hpost) hpre
    all_goals (exfalso; try split_ifs at hpost)
    all_goals first
      | (simp [Sys.goto] at hpost; done)
      | exact hpre (by simpa [Sys.goto] using hpost)
  | flush now =>
    simp only [step, step_flush] at hpost
    cases hp : s.fl <;> rw [hp] at hpost <;> simp only [] at hpost
    case l132 =>
      split_ifs at hpost with hc
      · right
        refine ⟨now, rfl, ?_, rfl⟩
        simpa using hpost.symm
      · exact absurd hpost hpre
    all_goals (exfalso; try split_ifs at hpost)
    all_goals first
      | (simp at hpost; done)
      | exact hpre (by simpa using hpost)
  | shutdown =>
    exfalso; apply hpre
    simp only [step, step_shutdown] at hpost
    split_ifs at hpost <;> simpa using hpost

theorem lock_acquired_at (E : Env) (s : Sys) (l : Label) (t : Tid)
    (hpre : s.lock ≠ some t) (hpost : (step E s l).lock = some t) :
    (∃ i a hdr, l = .prod i ∧ t = .prod i ∧ s.pr i = .l89 a hdr) ∨
    (∃ now, l = .flush now ∧ t = .flush ∧
      (s.fl = .l129 ∨ s.fl = .l157 ∨ ∃ t0, s.fl = .waiting t0)) := by
  cases l with
  | call i a =>
    exfalso; apply hpre
    simp only [step, step_call] at hpost
    split_ifs at hpost <;> simpa [Sys.goto] using hpost
  | prod i =>
    simp only [step, step_prod] at hpost
    cases hp : s.pr i <;> rw [hp] at hpost <;> simp only [] at hpost
    case l89 a hdr =>
      split_ifs at hpost with hc
      · left
        refine ⟨i, a, hdr, rfl, ?_, hp⟩
        simpa [Sys.goto] using hpost.symm
      · exact absurd hpost hpre
    all_goals (exfalso; try split_ifs at hpost)
    all_goals first
      | (simp [Sys.goto] at hpost; done)
      | exact hpre (by simpa [Sys.goto] using hpost)
  | flush now =>
    simp only [step, step_flush] at hpost
    cases hp : s.fl <;> rw [hp] at hpost <;> simp only [] at hpost
    case l129 =>
      split_ifs at hpost with hc
      · right
        exact ⟨now, rfl, by simpa using hpost.symm, Or.inl rfl⟩
      · exact absurd hpost hpre
    case l157 =>
      split_ifs at hpost with hc
      · right
        exact ⟨now, rfl, by simpa using hpost.symm, Or.inr (Or.inl rfl)⟩
      · exact absurd hpost hpre
    case waiting t0 =>
      split_ifs at hpost with hc
      · right
        exact ⟨now, rfl, by simpa using hpost.symm, Or.inr (Or.inr ⟨t0, rfl⟩)⟩
      · exact absurd hpost hpre
    all_goals (exfalso; try split_ifs at hpost)
    all_goals first
      | (simp at hpost; done)
      | exact hpre (by simpa using hpost)
  | shutdown =>
    exfalso; apply hpre
    simp only [step, step_shutdown] at hpost
    split_ifs at hpost <;> simpa using hpost

/-- Whatever step hands the buffer-lock to a thread, that thread does not hold
`sendlock` at that moment. -/
theorem lock_taken_without_sendlock (E : Env) (s : Sys) (h : LockInv s) (l : Label) (t : Tid)
    (hpre : s.lock ≠ some t) (hpost : (step E s l).lock = some t) : s.sendlock ≠ some t := by
  rcases lock_acquired_at E s l t hpre hpost with ⟨i, a, hdr, _, ht, hp⟩ | ⟨now, _, ht, hp⟩
  · subst ht
    intro hc
    have := (h.pr_send i).mpr hc
    simp [hp, PPc.holds_sendlock] at this
  · subst ht
    intro hc
    have := h.fl_send.mpr hc
    rcases hp with e | e | ⟨t0, e⟩ <;> simp [e, FPc.holds_sendlock] at this

/-- Whatever step hands `sendlock` to a thread, that thread holds the
buffer-lock at that moment. -/
theorem sendlock_taken_under_lock (E : Env) (s : Sys) (h : LockInv s) (l : Label) (t : Tid)
    (hpre : s.sendlock ≠ some t) (hpost : (step E s l).sendlock = some t) :
    s.lock = some t := by
  rcases sendlock_acquired_at E s l t hpre hpost with ⟨i, tg, prev, _, ht, hp⟩ | ⟨now, _, ht, hp⟩
  · subst ht
    apply (h.pr_lock i).mp
    simp [hp, PPc.holds_lock]
  · subst ht
    apply h.fl_lock.mp
    simp [hp, FPc.holds_lock]

/-- The flush thread from the moment it has `sendlock`: its next statement is
the swap, still under the buffer-lock, and the statement after that frees
the buffer-lock. -/
theorem flush_unlocks_after_swap (E : Env) (s : Sys) (h : LockInv s) (now : Nat) :
    (s.fl = .l132 → s.sendlock = none → (step E s (.flush now)).fl = .l133) ∧
    (s.fl = .l133 →
      (step E s (.flush now)).fl = .l134 ∧ (step E s (.flush now)).ch = swap_buffers s.ch ∧
      (step E s (.flush now)).lock = some .flush) ∧
    (s.fl = .l134 →
      (step E s (.flush now)).fl = .l135 ∧ (step E s (.flush now)).ch = s.ch ∧
      (step E s (.flush now)).lock = none) := by
  refine ⟨fun e hs => ?_, fun e => ?_, fun e => ?_⟩
  · simp [step, step_flush, e, hs]
  · have hl : s.lock = some .flush := h.fl_lock.mp (by simp [e, FPc.holds_lock])
    simp [step, step_flush, e, hl]
  · simp [step, step_flush, e]

/-- While the flush thread is about to call or is inside `comm->send` it does
not hold the buffer-lock. -/
theorem flush_sends_without_lock (s : Sys) (h : LockInv s)
    (e : s.fl = .l135 ∨ ∃ n, s.fl = .in_send n) : s.lock ≠ some .flush := by
  intro hc
  have := h.fl_lock.mpr hc
  rcases e with e | ⟨n, e⟩ <;> simp [e, FPc.holds_lock] at this

/-- C6 as amended: in every reachable state, (1) the flush thread at its
blocking `sendlock.lock()` of line 132 holds the buffer-lock; (2) a thread
that waits for `sendlock` is the flush thread at line 132, holding the
buffer-lock; (3) a producer at its `sendlock.try_lock()` of line 95 always
moves on; (4) a step that hands the buffer-lock to a thread finds that thread
without `sendlock`; (5) a step hands `sendlock` to a thread only at a
producer's line 95 or at the flush thread's line 132, and that thread holds
the buffer-lock then; (6) once the flush thread has `sendlock`, its next
statement is the swap, still under the buffer-lock, and the statement after
the swap frees the buffer-lock; (7) the flush thread does not hold the
buffer-lock when it calls `comm->send` nor while it is inside. -/
theorem lock_order (E : Env) (ch : Channel) (sched : List Label) :
    ((run E ch sched).fl = .l132 → (run E ch sched).lock = some .flush) ∧
    (∀ l, waits_for_sendlock E (run E ch sched) l →
      (∃ now, l = .flush now) ∧ (run E ch sched).fl = .l132 ∧
        (run E ch sched).lock = some .flush) ∧
    (∀ i t prev, (run E ch sched).pr i = .l95 t prev →
      (step E (run E ch sched) (.prod i)).pr i ≠ .l95 t prev) ∧
    (∀ l t, (run E ch sched).lock ≠ some t → (step E (run E ch sched) l).lock = some t →
      (run E ch sched).sendlock ≠ some t) ∧
    (∀ l t, (run E ch sched).sendlock ≠ some t → (step E (run E ch sched) l).sendlock = some t →
      ((∃ i tg prev, l = .prod i ∧ t = .prod i ∧ (run E ch sched).pr i = .l95 tg prev) ∨
       (∃ now, l = .flush now ∧ t = .flush ∧ (run E ch sched).fl = .l132)) ∧
      (run E ch sched).lock = some t) ∧
    (∀ now,
      ((run E ch sched).fl = .l132 → (run E ch sched).sendlock = none →
        (step E (run E ch sched) (.flush now)).fl = .l133) ∧
      ((run E ch sched).fl = .l133 →
        (step E (run E ch sched) (.flush now)).fl = .l134 ∧
        (step E (run E ch sched) (.flush now)).ch = swap_buffers (run E ch sched).ch ∧
        (step E (run E ch sched) (.flush now)).lock = some .flush) ∧
      ((run E ch sched).fl = .l134 →
        (step E (run E ch sched) (.flush now)).fl = .l135 ∧
        (step E (run E ch sched) (.flush now)).ch = (run E ch sched).ch ∧
        (step E (run E ch sched) (.flush now)).lock = none)) ∧
    ((run E ch sched).fl = .l135 ∨ (∃ n, (run E ch sched).fl = .in_send n) →
      (run E ch sched).lock ≠ some .flush) := by
  have h := run_inv E ch sched
  have h132 : (run E ch sched).fl = .l132 → (run E ch sched).lock = some .flush := by
    intro e
    apply h.fl_lock.mp
    simp [e, FPc.holds_lock]
  refine ⟨h132, fun l hw => ?_, fun i t prev hp => try_lock_moves E _ i t prev hp,
    fun l t h1 h2 => lock_taken_without_sendlock E _ h l t h1 h2,
    fun l t h1 h2 => ⟨sendlock_acquired_at E _ l t h1 h2,
      sendlock_taken_under_lock E _ h l t h1 h2⟩,
    fun now => flush_unlocks_after_swap E _ h now,
    fun e => flush_sends_without_lock _ h e⟩
  obtain ⟨h1, h2⟩ := waits_only_at_l132 E _ l hw
  exact ⟨h1, h2, h132 h2⟩

/-- C6 as stated fails: after `sched132` the flush thread is at its blocking
`sendlock.lock()` of line 132, `sendlock` is held by producer 0, which is
inside `comm->send`, and the flush thread holds the buffer-lock. -/
theorem lock_order_counterexample :
    (run E0 c0 sched132).fl = .l132 ∧ (run E0 c0 sched132).sendlock = some (.prod 0) ∧
    (run E0 c0 sched132).lock = some .flush := by
  decide

/-- C6 as amended, on concrete schedules: after `sched132` the flush thread
is at line 132 with the buffer-lock in hand; the step that first gives it
the buffer-lock finds it without `sendlock`; and after `sched134`, where it
has swapped, its next step frees the buffer-lock. -/
theorem lock_order_witness :
    (run E0 c0 sched132).lock = some .flush ∧
    (run E0 c0 []).sendlock ≠ some .flush ∧
    (step E0 (run E0 c0 sched134) (.flush 5)).lock = none := by
  refine ⟨(lock_order E0 c0 sched132).1 (by decide), ?_, ?_⟩
  · exact (lock_order E0 c0 []).2.2.2.1 (.flush 0) .flush (by decide) (by decide)
  · exact (((lock_order E0 c0 sched134).2.2.2.2.2.1 5).2.2 (by decide)).2.2

/-! ## Theorems, part 6: the two embeddings agree -/

/-- A producer that runs alone from entry to return with `sendlock` free does
to the channel what `send_data` with a successful try-lock does, and leaves
both mutexes free. -/
theorem send_data_fast_path_steps (E : Env) (s : Sys) (i : Nat) (a : Args)
    (hidle : s.pr i = .idle) (hl : s.lock = none) (hs : s.sendlock = none) :
    ((List.replicate 9 (Label.prod i)).foldl (step E) (step E s (.call i a))).ch
      = send_data E s.ch a.target a.mask a.data a.len a.key true ∧
    ((List.replicate 9 (Label.prod i)).foldl (step E) (step E s (.call i a))).pr i = .idle ∧
    ((List.replicate 9 (Label.prod i)).foldl (step E) (step E s (.call i a))).lock = none ∧
    ((List.replicate 9 (Label.prod i)).foldl (step E) (step E s (.call i a))).sendlock = none := by
  simp [List.replicate, step, step_call, step_prod, Sys.goto, hidle, hl, hs, send_data]

/-- A producer that runs alone from entry to return while another thread holds
`sendlock` does to the channel what `send_data` with a failed try-lock does. -/
theorem send_data_slow_path_steps (E : Env) (s : Sys) (i : Nat) (a : Args) (t : Tid)
    (hidle : s.pr i = .idle) (hl : s.lock = none) (hs : s.sendlock = some t) :
    ((List.replicate 6 (Label.prod i)).foldl (step E) (step E s (.call i a))).ch
      = send_data E s.ch a.target a.mask a.data a.len a.key false ∧
    ((List.replicate 6 (Label.prod i)).foldl (step E) (step E s (.call i a))).pr i = .idle ∧
    ((List.replicate 6 (Label.prod i)).foldl (step E) (step E s (.call i a))).lock = none := by
  by_cases hsig : should_signal (append_packet E (account E s.ch a.target a.mask a.len)
      (build_hdr (account E s.ch a.target a.mask a.len) a.mask a.len a.key) a.data a.len)
      (account E s.ch a.target a.mask a.len).writebuffer.len = true
  · simp [List.replicate, step, step_call, step_prod, Sys.goto, hidle, hl, hs, send_data, hsig]
  · simp [List.replicate, step, step_call, step_prod, Sys.goto, hidle, hl, hs, send_data, hsig]

/-- The flush thread running alone from line 131 with a non-empty write buffer
and `sendlock` free does to the channel what `send_loop_iter` does. -/
theorem send_loop_iter_steps (E : Env) (s : Sys) (now : Nat)
    (hfl : s.fl = .l131) (hw : s.ch.writebuffer.len > 0) (hs : s.sendlock = none) :
    ((List.replicate 10 (Label.flush now)).foldl (step E) s).ch = send_loop_iter E s.ch now ∧
    ((List.replicate 10 (Label.flush now)).foldl (step E) s).fl = .l170 ∧
    ((List.replicate 10 (Label.flush now)).foldl (step E) s).sendlock = none := by
  simp [List.replicate, step, step_flush, hfl, hw, hs, send_loop_iter]

/-! ## Theorems, part 7: no data loss under interleaving -/

theorem phase_goto_self (s : Sys) (i : Nat) (p : PPc) (ch : Channel) (L : Option Tid) :
    ({ s with ch := ch, lock := L, sendlock := some (.prod i) }.goto i p).phase = p.phase := by
  simp [Sys.phase, Sys.goto]

theorem phase_goto_other (s : Sys) (i : Nat) (p : PPc) (ch : Channel) (L : Option Tid)
    (h : s.sendlock ≠ some (.prod i)) :
    ({ s with ch := ch, lock := L }.goto i p).phase = s.phase := by
  unfold Sys.phase Sys.goto
  simp only
  cases hs : s.sendlock with
  | none => rfl
  | some t =>
    cases t with
    | flush => rfl
    | prod j =>
      have : j ≠ i := by
        intro e; subst e; exact h hs
      simp [Function.update_noteq this]

theorem phase_of_holder (s : Sys) (i : Nat) (h : s.sendlock = some (.prod i)) :
    s.phase = (s.pr i).phase := by
  simp [Sys.phase, h]

theorem procid_account (E : Env) (c : Channel) (t m n : Nat) :
    (account E c t m n).procid = c.procid := (account_fields E c t m n).2.2.2

theorem sendbuffer_account (E : Env) (c : Channel) (t m n : Nat) :
    (account E c t m n).sendbuffer = c.sendbuffer := (account_fields E c t m n).2.1

theorem writebuffer_account (E : Env) (c : Channel) (t m n : Nat) :
    (account E c t m n).writebuffer = c.writebuffer := (account_fields E c t m n).1

theorem wire_account (E : Env) (c : Channel) (t m n : Nat) :
    (account E c t m n).wire = c.wire := by
  simp [Channel.wire, (account_fields E c t m n).2.2.1]

theorem wire_shrink_or_clear (c : Channel) : (shrink_or_clear c).wire = c.wire := by
  simp [Channel.wire, (shrink_or_clear_fields c).2.2.1]

theorem wire_rate_update (E : Env) (c : Channel) (n now : Nat) :
    (rate_update E c n now).wire = c.wire := by
  simp [Channel.wire, (rate_update_fields E c n now).2.2.1]

theorem phase_fl_other (s : Sys) (p : FPc) (ch : Channel) (L : Option Tid)
    (h : s.sendlock ≠ some .flush) :
    ({ s with ch := ch, lock := L, fl := p } : Sys).phase = s.phase := by
  unfold Sys.phase
  simp only
  cases hs : s.sendlock with
  | none => rfl
  | some t =>
    cases t with
    | flush => exact absurd hs h
    | prod j => rfl

/-- A step of producer `i` that leaves `sendlock` alone while `i` is not its
holder: the invariant follows the write buffer. -/
theorem dataInv_goto_other {p0 : Nat} {fr : List Byte} {s : Sys} (hD : DataInv p0 fr s)
    (i : Nat) (p : PPc) (ch : Channel) (L : Option Tid) (extra : List Byte)
    (hne : s.sendlock ≠ some (.prod i))
    (hproc : ch.procid = s.ch.procid) (hsb : ch.sendbuffer = s.ch.sendbuffer)
    (hwire : ch.wire = s.ch.wire)
    (hwb : ch.writebuffer.str = s.ch.writebuffer.str ++ extra)
    (hp : ∀ a hdr, (p = .l89 a hdr ∨ p = .l91 a hdr) →
      hdr = { len := a.len, src := p0, sequentialization_key := a.key,
              packet_type_mask := a.mask }) :
    DataInv p0 (fr ++ extra) ({ s with ch := ch, lock := L }.goto i p) := by
  have hph := phase_goto_other s i p ch L hne
  refine ⟨?_, fun j a hdr hj => ?_, fun h0 => ?_, ?_⟩
  · simpa [Sys.goto, hproc] using hD.procid_eq
  · by_cases e : j = i
    · subst e
      simp only [Sys.goto, Function.update_same] at hj
      exact hp a hdr hj
    · simp only [Sys.goto, Function.update_noteq e] at hj
      exact hD.hdr_ok j a hdr hj
  · rw [hph] at h0
    have := hD.empty h0
    simpa [Sys.goto, hsb] using this
  · have hfl : ({ s with ch := ch, lock := L }.goto i p).in_flight = s.in_flight := by
      unfold Sys.in_flight
      rw [hph]
      simp [Sys.goto, hsb]
    rw [hfl]
    have := hD.all
    simp only [Sys.goto, hwire, hwb]
    rw [← this]
    simp

/-- A step of producer `i` after which `i` holds `sendlock`: the invariant is
read off the new program point. -/
theorem dataInv_goto_self {p0 : Nat} {fr0 : List Byte} {s : Sys} (hD : DataInv p0 fr0 s)
    (fr : List Byte) (i : Nat) (p : PPc) (ch : Channel) (L S : Option Tid)
    (hS : S = some (.prod i))
    (hproc : ch.procid = s.ch.procid)
    (hp : ∀ a hdr, ¬ (p = .l89 a hdr ∨ p = .l91 a hdr))
    (hempty : p.phase = 0 → ch.sendbuffer.str = [])
    (hall : ch.wire ++ (if p.phase = 1 then ch.sendbuffer.str else []) ++ ch.writebuffer.str
      = fr) :
    DataInv p0 fr ({ s with ch := ch, lock := L, sendlock := S }.goto i p) := by
  subst hS
  have hph := phase_goto_self s i p ch L
  refine ⟨?_, fun j a hdr hj => ?_, fun h0 => ?_, ?_⟩
  · simpa [Sys.goto, hproc] using hD.procid_eq
  · by_cases e : j = i
    · subst e
      simp only [Sys.goto, Function.update_same] at hj
      exact absurd hj (hp a hdr)
    · simp only [Sys.goto, Function.update_noteq e] at hj
      exact hD.hdr_ok j a hdr hj
  · rw [hph] at h0
    simpa [Sys.goto] using hempty h0
  · unfold Sys.in_flight
    rw [hph]
    simpa [Sys.goto] using hall

/-- The holder's view of the invariant. -/
theorem dataInv_holder {p0 : Nat} {fr : List Byte} {s : Sys} (hD : DataInv p0 fr s) (i : Nat)
    (h : s.sendlock = some (.prod i)) :
    ((s.pr i).phase = 0 → s.ch.sendbuffer.str = []) ∧
    s.ch.wire ++ (if (s.pr i).phase = 1 then s.ch.sendbuffer.str else [])
      ++ s.ch.writebuffer.str = fr := by
  have hph := phase_of_holder s i h
  refine ⟨fun h0 => hD.empty (by rw [hph]; exact h0), ?_⟩
  have := hD.all
  unfold Sys.in_flight at this
  rw [hph] at this
  exact this

/-- The step in which producer `i` gives `sendlock` back. -/
theorem dataInv_goto_release {p0 : Nat} {fr : List Byte} {s : Sys} (hD : DataInv p0 fr s)
    (i : Nat) (p : PPc) (hs : s.sendlock = some (.prod i)) (hph : (s.pr i).phase = 0)
    (hp : ∀ a hdr, ¬ (p = .l89 a hdr ∨ p = .l91 a hdr)) :
    DataInv p0 fr ({ s with sendlock := none }.goto i p) := by
  obtain ⟨h1, h2⟩ := dataInv_holder hD i hs
  rw [hph] at h2
  refine ⟨hD.procid_eq, fun j a hdr hj => ?_, fun _ => h1 hph, ?_⟩
  · by_cases e : j = i
    · subst e
      simp only [Sys.goto, Function.update_same] at hj
      exact absurd hj (hp a hdr)
    · simp only [Sys.goto, Function.update_noteq e] at hj
      exact hD.hdr_ok j a hdr hj
  · simpa [Sys.in_flight, Sys.phase, Sys.goto] using h2

theorem step_prod_data (E : Env) (p0 : Nat) (fr : List Byte) (s : Sys) (i : Nat)
    (hL : LockInv s) (hD : DataInv p0 fr s) :
    DataInv p0 (fr ++ enqueued_by E p0 s (.prod i)) (step_prod E s i) := by
  have h2i := hL.pr_send i
  unfold step_prod
  simp only [enqueued_by]
  cases hp : s.pr i <;> rw [hp] at h2i <;> simp only [PPc.holds_sendlock] at h2i <;>
    simp only []
  case idle => simpa using hD
  case l89 a hdr =>
    split_ifs with hc
    · have := dataInv_goto_other hD i (.l91 a hdr) s.ch (some (.prod i)) [] (by simpa using h2i)
        rfl rfl rfl (by simp) (fun a1 hdr1 h1 => by
          rcases h1 with h1 | h1
          · cases h1
          · obtain ⟨ha, hh⟩ := PPc.l91.inj h1
            subst ha hh
            exact hD.hdr_ok i _ _ (Or.inl hp))
      simpa using this
    · simpa using hD
  case l91 a hdr =>
    have hh := hD.hdr_ok i a hdr (Or.inr hp)
    rw [← hh]
    exact dataInv_goto_other hD i _ (append_packet E s.ch hdr a.data a.len) s.lock
      (E.hdr_bytes hdr ++ a.data.take a.len) (by simpa using h2i) rfl rfl rfl
      (by simp [append_packet, Buffer.write]) (fun a1 hdr1 h1 => by rcases h1 with h1 | h1 <;> cases h1)
  case l95 t prev =>
    split_ifs with hc
    · have hph : s.phase = 0 := by simp [Sys.phase, hc]
      have hall := hD.all
      simp only [Sys.in_flight, hph] at hall
      have := dataInv_goto_self hD fr i (.l98 t) s.ch s.lock (some (.prod i)) rfl rfl
        (fun a1 hdr1 h1 => by rcases h1 with h1 | h1 <;> cases h1)
        (fun _ => hD.empty hph) (by simpa [PPc.phase] using hall)
      simpa using this
    · have := dataInv_goto_other hD i (.l112 prev) s.ch s.lock [] (by simpa using h2i)
        rfl rfl rfl (by simp) (fun a1 hdr1 h1 => by rcases h1 with h1 | h1 <;> cases h1)
      simpa using this
  case l98 t =>
    have hs : s.sendlock = some (.prod i) := by simpa using h2i
    obtain ⟨h1, h2⟩ := dataInv_holder hD i hs
    rw [hp] at h1 h2
    have hsb := h1 rfl
    have := dataInv_goto_self hD fr i (.l99 t) (swap_buffers s.ch) s.lock s.sendlock hs rfl
      (fun a1 hdr1 h1 => by rcases h1 with h1 | h1 <;> cases h1)
      (by simp [PPc.phase])
      (by simpa [PPc.phase, swap_buffers, Channel.wire, hsb] using h2)
    simpa using this
  case l99 t =>
    have hs : s.sendlock = some (.prod i) := by simpa using h2i
    obtain ⟨h1, h2⟩ := dataInv_holder hD i hs
    rw [hp] at h1 h2
    have := dataInv_goto_self hD fr i (.l101 t) s.ch none s.sendlock hs rfl
      (fun a1 hdr1 h1 => by rcases h1 with h1 | h1 <;> cases h1)
      (by simp [PPc.phase]) (by simpa [PPc.phase] using h2)
    simpa using this
  case l101 t =>
    have hs : s.sendlock = some (.prod i) := by simpa using h2i
    obtain ⟨h1, h2⟩ := dataInv_holder hD i hs
    rw [hp] at h1 h2
    have := dataInv_goto_self hD fr i .in_send (transport_call s.ch t) s.lock s.sendlock hs rfl
      (fun a1 hdr1 h1 => by rcases h1 with h1 | h1 <;> cases h1)
      (by simp [PPc.phase])
      (by simpa [PPc.phase, transport_call, Channel.wire] using h2)
    simpa using this
  case in_send =>
    have hs : s.sendlock = some (.prod i) := by simpa using h2i
    obtain ⟨h1, h2⟩ := dataInv_holder hD i hs
    rw [hp] at h1 h2
    have := dataInv_goto_self hD fr i .l103 s.ch s.lock s.sendlock hs rfl
      (fun a1 hdr1 h1 => by rcases h1 with h1 | h1 <;> cases h1)
      (by simp [PPc.phase]) (by simpa [PPc.phase] using h2)
    simpa using this
  case l103 =>
    have hs : s.sendlock = some (.prod i) := by simpa using h2i
    obtain ⟨h1, h2⟩ := dataInv_holder hD i hs
    rw [hp] at h1 h2
    obtain ⟨c1, c2, c3, c4⟩ := shrink_or_clear_fields s.ch
    have := dataInv_goto_self hD fr i .l110 (shrink_or_clear s.ch) s.lock s.sendlock hs c4
      (fun a1 hdr1 h1 => by rcases h1 with h1 | h1 <;> cases h1)
      (fun _ => c1)
      (by simpa [PPc.phase, wire_shrink_or_clear, c2] using h2)
    simpa using this
  case l110 =>
    have hs : s.sendlock = some (.prod i) := by simpa using h2i
    have := dataInv_goto_release hD i .idle hs (by rw [hp]; rfl)
      (fun a1 hdr1 h1 => by rcases h1 with h1 | h1 <;> cases h1)
    simpa using this
  case l112 prev =>
    split_ifs with hc
    · have := dataInv_goto_other hD i .l114 s.ch s.lock [] (by simpa using h2i)
        rfl rfl rfl (by simp) (fun a1 hdr1 h1 => by rcases h1 with h1 | h1 <;> cases h1)
      simpa using this
    · have := dataInv_goto_other hD i .l118 s.ch s.lock [] (by simpa using h2i)
        rfl rfl rfl (by simp) (fun a1 hdr1 h1 => by rcases h1 with h1 | h1 <;> cases h1)
      simpa using this
  case l114 =>
    have := dataInv_goto_other hD i .l115 (signal s.ch) s.lock [] (by simpa using h2i)
      rfl rfl rfl (by simp [signal]) (fun a1 hdr1 h1 => by rcases h1 with h1 | h1 <;> cases h1)
    simpa using this
  case l115 =>
    have := dataInv_goto_other hD i .idle s.ch none [] (by simpa using h2i)
      rfl rfl rfl (by simp) (fun a1 hdr1 h1 => by rcases h1 with h1 | h1 <;> cases h1)
    simpa using this
  case l118 =>
    have := dataInv_goto_other hD i .idle s.ch none [] (by simpa using h2i)
      rfl rfl rfl (by simp) (fun a1 hdr1 h1 => by rcases h1 with h1 | h1 <;> cases h1)
    simpa using this

theorem phase_fl_self (s : Sys) (p : FPc) (ch : Channel) (L : Option Tid) :
    ({ s with ch := ch, lock := L, sendlock := some .flush, fl := p } : Sys).phase = p.phase := by
  simp [Sys.phase]

/-- A step of the flush thread that leaves `sendlock` alone while the thread
is not its holder and that does not touch the buffers or the wire. -/
theorem dataInv_fl_other {p0 : Nat} {fr : List Byte} {s : Sys} (hD : DataInv p0 fr s)
    (p : FPc) (L : Option Tid) (hne : s.sendlock ≠ some .flush) :
    DataInv p0 fr { s with lock := L, fl := p } := by
  have hph := phase_fl_other s p s.ch L hne
  refine ⟨hD.procid_eq, hD.hdr_ok, fun h0 => ?_, ?_⟩
  · rw [hph] at h0
    exact hD.empty h0
  · have := hD.all
    unfold Sys.in_flight at this ⊢
    rw [hph]
    exact this

/-- A step of the flush thread after which it holds `sendlock`. -/
theorem dataInv_fl_self {p0 : Nat} {fr : List Byte} {s : Sys} (hD : DataInv p0 fr s)
    (p : FPc) (ch : Channel) (L S : Option Tid) (hS : S = some .flush)
    (hproc : ch.procid = s.ch.procid)
    (hempty : p.phase = 0 → ch.sendbuffer.str = [])
    (hall : ch.wire ++ (if p.phase = 1 then ch.sendbuffer.str else []) ++ ch.writebuffer.str
      = fr) :
    DataInv p0 fr { s with ch := ch, lock := L, sendlock := S, fl := p } := by
  subst hS
  have hph := phase_fl_self s p ch L
  refine ⟨by simpa [hproc] using hD.procid_eq, hD.hdr_ok, fun h0 => ?_, ?_⟩
  · rw [hph] at h0
    exact hempty h0
  · unfold Sys.in_flight
    rw [hph]
    exact hall

/-- The flush thread's view of the invariant while it holds `sendlock`. -/
theorem dataInv_fl_holder {p0 : Nat} {fr : List Byte} {s : Sys} (hD : DataInv p0 fr s)
    (h : s.sendlock = some .flush) :
    (s.fl.phase = 0 → s.ch.sendbuffer.str = []) ∧
    s.ch.wire ++ (if s.fl.phase = 1 then s.ch.sendbuffer.str else [])
      ++ s.ch.writebuffer.str = fr := by
  have hph : s.phase = s.fl.phase := by simp [Sys.phase, h]
  refine ⟨fun h0 => hD.empty (by rw [hph]; exact h0), ?_⟩
  have := hD.all
  unfold Sys.in_flight at this
  rw [hph] at this
  exact this

theorem step_flush_data (E : Env) (p0 : Nat) (fr : List Byte) (s : Sys) (now : Nat)
    (hL : LockInv s) (hD : DataInv p0 fr s) : DataInv p0 fr (step_flush E s now) := by
  have h1 := hL.fl_send
  unfold step_flush
  cases hp : s.fl <;> rw [hp] at h1 <;> simp only [FPc.holds_sendlock] at h1 <;> simp only []
  case l132 =>
    split_ifs with hc
    · have hph : s.phase = 0 := by simp [Sys.phase, hc]
      have hall := hD.all
      simp only [Sys.in_flight, hph] at hall
      exact dataInv_fl_self hD .l133 s.ch s.lock (some .flush) rfl rfl
        (fun _ => hD.empty hph) (by simpa [FPc.phase] using hall)
    · exact hD
  case l133 =>
    have hs : s.sendlock = some .flush := by simpa using h1
    obtain ⟨a1, a2⟩ := dataInv_fl_holder hD hs
    rw [hp] at a1 a2
    have hsb := a1 rfl
    exact dataInv_fl_self hD .l134 (swap_buffers s.ch) s.lock s.sendlock hs rfl
      (by simp [FPc.phase])
      (by simpa [FPc.phase, swap_buffers, Channel.wire, hsb] using a2)
  case l134 =>
    have hs : s.sendlock = some .flush := by simpa using h1
    obtain ⟨a1, a2⟩ := dataInv_fl_holder hD hs
    rw [hp] at a1 a2
    exact dataInv_fl_self hD .l135 s.ch none s.sendlock hs rfl
      (by simp [FPc.phase]) (by simpa [FPc.phase] using a2)
  case l135 =>
    have hs : s.sendlock = some .flush := by simpa using h1
    obtain ⟨a1, a2⟩ := dataInv_fl_holder hD hs
    rw [hp] at a1 a2
    exact dataInv_fl_self hD (.in_send s.ch.sendbuffer.len) (transport_call s.ch s.ch.target)
      s.lock s.sendlock hs rfl (by simp [FPc.phase])
      (by simpa [FPc.phase, transport_call, Channel.wire] using a2)
  case in_send n =>
    have hs : s.sendlock = some .flush := by simpa using h1
    obtain ⟨a1, a2⟩ := dataInv_fl_holder hD hs
    rw [hp] at a1 a2
    exact dataInv_fl_self hD (.l138 n) s.ch s.lock s.sendlock hs rfl
      (by simp [FPc.phase]) (by simpa [FPc.phase] using a2)
  case l138 n =>
    have hs : s.sendlock = some .flush := by simpa using h1
    obtain ⟨a1, a2⟩ := dataInv_fl_holder hD hs
    rw [hp] at a1 a2
    obtain ⟨c1, c2, c3, c4⟩ := shrink_or_clear_fields s.ch
    exact dataInv_fl_self hD (.l145 n) (shrink_or_clear s.ch) s.lock s.sendlock hs c4
      (fun _ => c1) (by simpa [FPc.phase, wire_shrink_or_clear, c2] using a2)
  case l145 n =>
    have hs : s.sendlock = some .flush := by simpa using h1
    obtain ⟨a1, a2⟩ := dataInv_fl_holder hD hs
    rw [hp] at a1 a2
    obtain ⟨c1, c2, c3, c4⟩ := rate_update_fields E s.ch n now
    exact dataInv_fl_self hD .l156 (rate_update E s.ch n now) s.lock s.sendlock hs c4
      (fun _ => by rw [c2]; exact a1 rfl)
      (by simpa [FPc.phase, wire_rate_update, c1] using a2)
  case l156 =>
    have hs : s.sendlock = some .flush := by simpa using h1
    obtain ⟨a1, a2⟩ := dataInv_fl_holder hD hs
    rw [hp] at a1 a2
    refine ⟨hD.procid_eq, hD.hdr_ok, fun _ => a1 rfl, ?_⟩
    simpa [Sys.in_flight, Sys.phase, FPc.phase] using a2
  all_goals (try split_ifs)
  all_goals
    first
    | exact hD
    | exact dataInv_fl_other hD _ _ (by simpa using h1)

theorem step_call_data (E : Env) (p0 : Nat) (fr : List Byte) (s : Sys) (i : Nat) (a : Args)
    (hL : LockInv s) (hD : DataInv p0 fr s) : DataInv p0 fr (step_call E s i a) := by
  have h2i := hL.pr_send i
  unfold step_call
  split_ifs with hp
  · rw [hp] at h2i
    simp only [PPc.holds_sendlock] at h2i
    have := dataInv_goto_other hD i
      (.l89 a (build_hdr (account E s.ch a.target a.mask a.len) a.mask a.len a.key))
      (account E s.ch a.target a.mask a.len) s.lock [] (by simpa using h2i)
      (procid_account E s.ch _ _ _) (sendbuffer_account E s.ch _ _ _)
      (wire_account E s.ch _ _ _) (by simp [writebuffer_account])
      (fun a1 hdr1 h1 => by
        rcases h1 with h1 | h1
        · obtain ⟨ha, hh⟩ := PPc.l89.inj h1
          subst ha hh
          simp [build_hdr, procid_account, hD.procid_eq]
        · cases h1)
    simpa using this
  · exact hD

theorem step_shutdown_data (p0 : Nat) (fr : List Byte) (s : Sys) (hD : DataInv p0 fr s) :
    DataInv p0 fr (step_shutdown s) := by
  unfold step_shutdown
  split_ifs
  · exact ⟨hD.procid_eq, hD.hdr_ok, hD.empty, hD.all⟩
  · exact hD

theorem step_data (E : Env) (p0 : Nat) (fr : List Byte) (s : Sys) (l : Label)
    (hL : LockInv s) (hD : DataInv p0 fr s) :
    DataInv p0 (fr ++ enqueued_by E p0 s l) (step E s l) := by
  cases l with
  | call i a => simpa [enqueued_by] using step_call_data E p0 fr s i a hL hD
  | prod i => exact step_prod_data E p0 fr s i hL hD
  | flush now => simpa [enqueued_by] using step_flush_data E p0 fr s now hL hD
  | shutdown => simpa [enqueued_by] using step_shutdown_data p0 fr s hD

theorem foldl_data (E : Env) (p0 : Nat) (sched : List Label) :
    ∀ (s : Sys) (fr : List Byte), LockInv s → DataInv p0 fr s →
      DataInv p0 (fr ++ enqueued E p0 s sched) (sched.foldl (step E) s) := by
  induction sched with
  | nil => intro s fr _ hD; simpa [enqueued] using hD
  | cons l ls ih =>
    intro s fr hL hD
    have := ih _ _ (step_inv E s l hL) (step_data E p0 fr s l hL hD)
    simpa [enqueued, List.append_assoc] using this

theorem dataInv_init (ch : Channel) (hw : ch.writebuffer.str = []) (hs : ch.sendbuffer.str = []) :
    DataInv ch.procid ch.wire (Sys.init ch) := by
  refine ⟨rfl, fun i a hdr h => ?_, fun _ => hs, ?_⟩
  · rcases h with h | h <;> simp [Sys.init] at h
  · simp [Sys.init, Sys.in_flight, Sys.phase, hw]

/-- No data loss under every interleaving: from a channel whose two buffers
are empty, in every state a schedule reaches, the bytes handed to the
transport in call order, then the bytes swapped out and not yet handed over,
then the write buffer, are exactly the frames enqueued so far in enqueue
order; in particular, whenever `sendlock` is free, wire followed by write
buffer are those frames. -/
theorem interleaved_frames_preserved (E : Env) (ch : Channel) (sched : List Label)
    (hw : ch.writebuffer.str = []) (hs : ch.sendbuffer.str = []) :
    (run E ch sched).ch.wire ++ (run E ch sched).in_flight ++ (run E ch sched).ch.writebuffer.str
      = ch.wire ++ enqueued E ch.procid (Sys.init ch) sched ∧
    ((run E ch sched).sendlock = none →
      (run E ch sched).ch.wire ++ (run E ch sched).ch.writebuffer.str
        = ch.wire ++ enqueued E ch.procid (Sys.init ch) sched) := by
  have h := foldl_data E ch.procid sched (Sys.init ch) ch.wire (lockInv_init ch)
    (dataInv_init ch hw hs)
  refine ⟨h.all, fun hfree => ?_⟩
  have := h.all
  simp only [run] at hfree
  simp only [Sys.in_flight, Sys.phase, hfree] at this
  simpa [run] using this

/-! ## Theorems, part 8: the integer part of the rate controller -/

/-- The first measurement records the timestamp and nothing else. -/
theorem rate_update_first (E : Env) (c : Channel) (sentlen curtime : Nat) (h : c.prevtime = 0) :
    rate_update E c sentlen curtime = { c with prevtime := curtime } := by
  simp [rate_update, h]

/-- After any later measurement the threshold is not zero, whatever the
floating-point blend evaluates to. -/
theorem rate_update_nonzero (E : Env) (c : Channel) (sentlen curtime : Nat)
    (h : c.prevtime ≠ 0) : (rate_update E c sentlen curtime).wait_count_bytes ≠ 0 := by
  simp only [rate_update, h, if_false]
  split_ifs <;> omega

end dc_buffered_stream_send2
